import Mathlib

/-!
# Extraction orchestrator of the relay (`extractor/extractor.go`)

A shallow embedding of `ExtractorServiceImpl` and of the operations it runs for
every block and every pending transaction, followed by theorems about them.

Conventions of the embedding.

* `*big.Int` values are `Int`; Go `string`s are `String`.
* The receiver `l`, the event bus, the storage calls and the launched loops are
  gathered in one `World`, threaded through every operation.
* An operation ends in one of four ways: it returns (`Res.ok`), it reaches
  `log.Fatalf`, which ends the process (`Halt.fatal`), it hits a Go run-time
  panic (`Halt.panic`), or it waits on a channel send that nobody takes
  (`Halt.blocked`).  The world reached so far is kept in every case.
* Collaborators that live outside `extractor.go` (node RPC, fork detector,
  storage, ABI registry, wall clock) are fields of `Env`.  A collaborator with
  hidden state answers its k-th call through a function of `k`; the world
  counts the calls made to each of them.
* Log lines other than `log.Fatalf` (`log.Info`, `log.Debugf`, `log.Errorf`,
  `l.debug`) have no effect on the world and are left out.
-/

namespace Extractor

/-! ## Data model -/

/-- Constant `defaultEndBlockNumber` of the source. -/
def defaultEndBlockNumber : Int := 1000000000

/-- Fields of `types.Block` written by `ProcessBlock`. -/
structure Block where
  BlockNumber : Int
  ParentHash : String
  BlockHash : String
  CreateTime : Int
deriving DecidableEq, Repr

/-- Row type `dao.Block`, the image of a `types.Block` under `ConvertDown`. -/
structure DaoBlock where
  BlockNumber : Int
  ParentHash : String
  BlockHash : String
  CreateTime : Int
deriving DecidableEq, Repr

/-- Payload `types.BlockEvent` of the block-start and block-end notifications. -/
structure BlockEvent where
  BlockNumber : Int
  BlockHash : String
deriving DecidableEq, Repr

/-- Payload `types.ForkEvent` produced by the fork detector. -/
structure ForkEvent where
  ForkBlock : Int
  DetectedBlock : Int
deriving DecidableEq, Repr

/-- Log entry of a receipt (`ethaccessor.Log`): `Data` is the hex text sent by the node. -/
structure Log where
  Address : String
  Topics : List String
  Data : String
deriving DecidableEq, Repr

/-- Receipt of a mined transaction (`ethaccessor.TransactionReceipt`). -/
structure TransactionReceipt where
  Status : Int
  GasUsed : Int
  Logs : List Log
deriving DecidableEq, Repr

/-- Raw transaction (`ethaccessor.Transaction`). -/
structure Transaction where
  Hash : String
  To : String
  Input : String
  Value : Int
deriving DecidableEq, Repr

/-- Block handed out by the iterator (`ethaccessor.BlockWithTxAndReceipt`). -/
structure BlockWithTxAndReceipt where
  Number : Int
  Hash : String
  ParentHash : String
  Timestamp : Int
  Transactions : List Transaction
  Receipts : List TransactionReceipt
deriving DecidableEq, Repr

/-- Recognised contract event (`EventData` of the registry), with the context
written by `FullFilled`. -/
structure EventData where
  Id : String
  Name : String
  Event : List Nat
  TxHash : String
  LogData : String
  GasUsed : Int
  BlockTime : Int
deriving DecidableEq, Repr

/-- Recognised contract method (`MethodData` of the registry), with the context
written by `FullFilled`. -/
structure MethodData where
  Id : String
  Name : String
  TxHash : String
  Gas : Int
  BlockTime : Int
  Status : Nat
deriving DecidableEq, Repr

/-- Payload of the fallback transfer event. -/
structure TransferEvent where
  TxHash : String
  Value : Int
  BlockTime : Int
  Status : Nat
deriving DecidableEq, Repr

/-- Topics of the event bus: the named constants of `eventemitter` used by the
extractor, and the topics named by a method or event identifier. -/
inductive Topic where
  | Block_New
  | Block_End
  | ChainForkDetected
  | SyncChainComplete
  | PendingTransaction
  | EthTransferEvent
  | id (s : String)
deriving DecidableEq, Repr

/-- Data handed to `eventemitter.Emit`. -/
inductive Payload where
  | block (e : BlockEvent)
  | fork (e : ForkEvent)
  | head (n : Int)
  | method (m : MethodData)
  | event (e : EventData)
  | transfer (t : TransferEvent)
  | tx (t : Transaction)
deriving DecidableEq, Repr

/-- One call of `eventemitter.Emit`. -/
abbrev Emission := Topic × Payload

/-- Handler `eventemitter.Watcher`; `gen` tells apart the watchers allocated
by successive calls of `Start`. -/
structure Watcher where
  Concurrent : Bool
  gen : Nat
deriving DecidableEq, Repr

/-- Configuration `config.ExtractorOptions`.  `EndBlockNumber` is a `*big.Int`
that the constructor dereferences: `none` is the unset (nil) pointer.
`StartBlockNumber` is only copied and printed by the methods embedded here, so
it is taken as a number. -/
structure ExtractorOptions where
  Open : Bool
  StartBlockNumber : Int
  EndBlockNumber : Option Int
  ConfirmBlockNumber : Nat
  Debug : Bool
deriving DecidableEq, Repr

/-- Modelled from the spec: the cursor of `ethaccessor.BlockIterator`, whose
source is outside this file set (spec 3: nextHeight, endHeight,
confirmationDepth). -/
structure BlockIterator where
  currentNumber : Int
  endNumber : Int
  withTxData : Bool
  confirms : Nat
deriving DecidableEq, Repr

/-- Modelled from the spec: `ethaccessor.NewBlockIterator`, which builds a
cursor standing at its first argument. -/
def NewBlockIterator (startNumber endNumber : Int) (withTxData : Bool) (confirms : Nat) :
    BlockIterator :=
  { currentNumber := startNumber, endNumber := endNumber, withTxData := withTxData,
    confirms := confirms }

/-- Receiver `ExtractorServiceImpl`.  `stop` holds the values waiting in the
channel `make(chan bool, 1)`; the detector, processor and storage handles are
fields of `Env`, and the lock, which no method takes, is left out. -/
structure ExtractorServiceImpl where
  options : ExtractorOptions
  stop : List Bool
  startBlockNumber : Int
  endBlockNumber : Int
  iterator : Option BlockIterator
  pendingTxWatcher : Option Watcher
  syncComplete : Bool
  forkComplete : Bool
  forktest : Bool
deriving DecidableEq, Repr

/-- Number of calls made so far to each collaborator with hidden state. -/
structure Calls where
  next : Nat
  head : Nat
  detect : Nat
  txcount : Nat
  now : Nat
deriving DecidableEq, Repr

/-- Everything an operation of the extractor can read or change: the receiver,
the calls made to the collaborators, the emissions on the bus (oldest first),
the subscriptions, the blocks handed to `SaveBlock` (oldest first) and the
number of loops launched by `Start` that are still running. -/
structure World where
  l : ExtractorServiceImpl
  calls : Calls
  bus : List Emission
  watchers : List (Topic × Watcher)
  saved : List DaoBlock
  loops : Nat
deriving DecidableEq, Repr

/-- Registry `AbiProcessor` (spec 4.3); its source is outside this file set, so
its operations are parameters. -/
structure AbiProcessor where
  SupportedEvents : TransactionReceipt → Bool
  SupportedMethod : Transaction → Bool
  GetMethod : Transaction → Option MethodData
  GetEvent : Log → Option EventData
  Unpack : EventData → List Nat → Except String (List Nat)
  getGasAndStatus : Transaction → Option TransactionReceipt → Int × Nat
  handleEthTransfer : Transaction → Option TransactionReceipt → Int →
    List TransferEvent × Option String

/-- Collaborators of the extractor.  `Detect k`, `BlockNumber k`,
`GetBlockTransactionCountByHash k`, `GetBlock k` and `Now k` are the answers to
the k-th call of the fork detector, of the two node queries, of the node fetch
behind the iterator and of `time.Now().Unix()`; the transaction count is the
value read by `txcnt.Int()`. -/
structure Env where
  processor : AbiProcessor
  Detect : Nat → Block → Option ForkEvent
  BlockNumber : Nat → Except String Int
  GetBlockTransactionCountByHash : Nat → String → String → Except String Int
  GetBlock : Nat → Int → Except String BlockWithTxAndReceipt
  Now : Nat → Int
  FindLatestBlock : Except String DaoBlock

/-! ## Outcomes and sequencing -/

/-- Ways in which an operation ends without returning. -/
inductive Halt where
  | fatal
  | panic
  | blocked
deriving DecidableEq, Repr

/-- Outcome of an operation started in some world. -/
inductive Res (α : Type) where
  | ok (a : α) (w : World)
  | halt (h : Halt) (w : World)
deriving DecidableEq, Repr

/-- World reached by an outcome. -/
def Res.world {α : Type} : Res α → World
  | .ok _ w => w
  | .halt _ w => w

/-- Predicate: the operation returned. -/
def Res.returned {α : Type} : Res α → Bool
  | .ok _ _ => true
  | .halt _ _ => false

/-- The way an outcome ended without returning, if it did. -/
def Res.halted {α : Type} : Res α → Option Halt
  | .ok _ _ => none
  | .halt h _ => some h

/-- Operations of the extractor. -/
def M (α : Type) : Type := World → Res α

/-- Sequencing: the second operation runs only if the first returned. -/
def M.bind {α β : Type} (x : M α) (f : α → M β) : M β := fun w =>
  match x w with
  | .ok a w1 => f a w1
  | .halt h w1 => .halt h w1

instance : Monad M where
  pure a := fun w => .ok a w
  bind := M.bind

/-- Reads the world. -/
def getWorld : M World := fun w => .ok w w

/-- Changes the world. -/
def modifyWorld (f : World → World) : M Unit := fun w => .ok () (f w)

/-- Ends the operation without returning. -/
def haltWith {α : Type} (h : Halt) : M α := fun w => .halt h w

/-- Call `log.Fatalf`: the process ends. -/
def Fatalf {α : Type} : M α := haltWith .fatal

/-- Modelled from the spec: `eventemitter.Emit(topic, data)` (spec 6), which
publishes the data on the topic; the call is recorded at the end of the bus. -/
def Emit (t : Topic) (d : Payload) : M Unit :=
  modifyWorld fun w => { w with bus := w.bus ++ [(t, d)] }

/-- Modelled from the spec: `eventemitter.On(topic, watcher)` (spec 4.4, 6),
which subscribes the watcher to the topic. -/
def On (t : Topic) (watcher : Watcher) : M Unit :=
  modifyWorld fun w => { w with watchers := w.watchers ++ [(t, watcher)] }

/-- Modelled from the spec: `eventemitter.Un(topic, watcher)` (spec 4.4, 6),
which ends the subscription of the watcher to the topic; a nil watcher is
subscribed nowhere. -/
def Un (t : Topic) (watcher : Option Watcher) : M Unit :=
  modifyWorld fun w =>
    { w with watchers := w.watchers.filter fun p => !(p.1 = t ∧ some p.2 = watcher) }


/-! ## Library functions used by the source -/

/-- Value of one hexadecimal digit, as read by Go `encoding/hex`. -/
def hexDigit : Char → Option Nat
  | '0' => some 0
  | '1' => some 1
  | '2' => some 2
  | '3' => some 3
  | '4' => some 4
  | '5' => some 5
  | '6' => some 6
  | '7' => some 7
  | '8' => some 8
  | '9' => some 9
  | 'a' => some 10
  | 'b' => some 11
  | 'c' => some 12
  | 'd' => some 13
  | 'e' => some 14
  | 'f' => some 15
  | 'A' => some 10
  | 'B' => some 11
  | 'C' => some 12
  | 'D' => some 13
  | 'E' => some 14
  | 'F' => some 15
  | _ => none

/-- Bytes of a string of hexadecimal digits (`hex.DecodeString`); `none` for an
odd length or a character that is no digit. -/
def hexPairs : List Char → Option (List Nat)
  | [] => some []
  | [_] => none
  | a :: b :: rest =>
    match hexDigit a, hexDigit b, hexPairs rest with
    | some x, some y, some r => some ((16 * x + y) :: r)
    | _, _, _ => none

/-- Function `hexutil.Decode` of go-ethereum: the input must be non-empty and
start with `0x` or `0X`; `none` stands for the returned error. -/
def hexutilDecode (input : String) : Option (List Nat) :=
  match input.data with
  | '0' :: x :: rest => if x = 'x' ∨ x = 'X' then hexPairs rest else none
  | _ => none

/-- Function `hexutil.MustDecode` of go-ethereum: panics where `Decode` fails. -/
def MustDecode (input : String) : M (List Nat) :=
  match hexutilDecode input with
  | some b => pure b
  | none => haltWith .panic

/-- Go conversion `int64(x)` of an unsigned value: the low 64 bits, read as a
signed number. -/
def int64 (x : Nat) : Int :=
  if x % 2 ^ 64 < 2 ^ 63 then ((x % 2 ^ 64 : Nat) : Int) else ((x % 2 ^ 64 : Nat) : Int) - 2 ^ 64

/-! ## Collaborators -/

/-- Call `ethaccessor.BlockNumber`: the node head, or an error. -/
def BlockNumber (env : Env) : M (Except String Int) := fun w =>
  .ok (env.BlockNumber w.calls.head) { w with calls := { w.calls with head := w.calls.head + 1 } }

/-- Call `ethaccessor.GetBlockTransactionCountByHash`. -/
def GetBlockTransactionCountByHash (env : Env) (hash number : String) :
    M (Except String Int) := fun w =>
  .ok (env.GetBlockTransactionCountByHash w.calls.txcount hash number)
    { w with calls := { w.calls with txcount := w.calls.txcount + 1 } }

/-- Call `l.detector.Detect`. -/
def Detect (env : Env) (currentBlock : Block) : M (Option ForkEvent) := fun w =>
  .ok (env.Detect w.calls.detect currentBlock)
    { w with calls := { w.calls with detect := w.calls.detect + 1 } }

/-- Call `time.Now().Unix()`. -/
def timeNowUnix (env : Env) : M Int := fun w =>
  .ok (env.Now w.calls.now) { w with calls := { w.calls with now := w.calls.now + 1 } }

/-- Call `l.dao.SaveBlock`, recorded in `saved`; the returned error is dropped
by the caller. -/
def SaveBlock (entity : DaoBlock) : M Unit :=
  modifyWorld fun w => { w with saved := w.saved ++ [entity] }

/-- Modelled from the spec: `dao.Block.ConvertDown`, whose source is outside
this file set; it copies number, hashes and creation time into the row. -/
def ConvertDown (src : Block) : DaoBlock :=
  { BlockNumber := src.BlockNumber, ParentHash := src.ParentHash, BlockHash := src.BlockHash,
    CreateTime := src.CreateTime }

/-- Modelled from the spec: `dao.Block.ConvertUp`, whose source is outside this
file set; it copies number, hashes and creation time out of the row. -/
def ConvertUp (src : DaoBlock) : Block :=
  { BlockNumber := src.BlockNumber, ParentHash := src.ParentHash, BlockHash := src.BlockHash,
    CreateTime := src.CreateTime }

/-- Modelled from the spec: `BlockIterator.Next`, whose source is outside this
file set (spec 4.1): it returns the block at the cursor height and advances the
cursor, or returns the error of the node query.  A nil iterator panics. -/
def Next (env : Env) : M (Except String BlockWithTxAndReceipt) := fun w =>
  match w.l.iterator with
  | none => .halt .panic w
  | some it =>
    let w1 : World := { w with calls := { w.calls with next := w.calls.next + 1 } }
    match env.GetBlock w.calls.next it.currentNumber with
    | .error e => .ok (.error e) w1
    | .ok b =>
      .ok (.ok { b with Number := it.currentNumber })
        { w1 with l := { w1.l with iterator := some { it with currentNumber := it.currentNumber + 1 } } }

/-- Modelled from the spec: `EventData.FullFilled` (spec 4.3), which writes the
context of the log into the decoded event. -/
def EventData.FullFilled (event : EventData) (tx : Transaction) (evtLog : Log)
    (gasUsed blockTime : Int) : EventData :=
  { event with TxHash := tx.Hash, LogData := evtLog.Data, GasUsed := gasUsed,
               BlockTime := blockTime }

/-- Modelled from the spec: `MethodData.FullFilled` (spec 4.3), which writes
the context of the transaction into the decoded method. -/
def MethodData.FullFilled (method : MethodData) (tx : Transaction) (gas blockTime : Int)
    (status : Nat) : MethodData :=
  { method with TxHash := tx.Hash, Gas := gas, BlockTime := blockTime, Status := status }

/-- Call `l.processor.handleEthTransfer`: its transfer events go to the bus and
its error is returned. -/
def handleEthTransfer (env : Env) (tx : Transaction) (receipt : Option TransactionReceipt)
    (blockTime : Int) : M (Option String) := fun w =>
  let r := env.processor.handleEthTransfer tx receipt blockTime
  .ok r.2 { w with bus := w.bus ++ r.1.map fun t => (Topic.EthTransferEvent, Payload.transfer t) }

/-! ## Operations of `ExtractorServiceImpl` -/

/-- Method `ProcessMethod`. -/
def ProcessMethod (env : Env) (tx : Transaction) (receipt : Option TransactionReceipt)
    (blockTime : Int) : M (Option String) :=
  match env.processor.GetMethod tx with
  | none => pure none
  | some method => do
    let gs := env.processor.getGasAndStatus tx receipt
    Emit (.id method.Id) (.method (method.FullFilled tx gs.1 blockTime gs.2))
    pure none

/-- One round of the loop of `ProcessEvent` over `receipt.Logs`. -/
def ProcessEvent.onLog (env : Env) (tx : Transaction) (receipt : TransactionReceipt)
    (blockTime : Int) (evtLog : Log) : M Unit :=
  match env.processor.GetEvent evtLog with
  | none => pure ()
  | some event => do
    let data ← MustDecode evtLog.Data
    if 0 < data.length then
      match env.processor.Unpack event data with
      | .error _ => pure ()
      | .ok decoded =>
        Emit (.id event.Id)
          (.event (EventData.FullFilled { event with Event := decoded } tx evtLog
            receipt.GasUsed blockTime))
    else
      Emit (.id event.Id) (.event (event.FullFilled tx evtLog receipt.GasUsed blockTime))

/-- Loop of `ProcessEvent` over the logs still to be handled. -/
def ProcessEvent.logs (env : Env) (tx : Transaction) (receipt : TransactionReceipt)
    (blockTime : Int) : List Log → M Unit
  | [] => pure ()
  | evtLog :: rest => do
    ProcessEvent.onLog env tx receipt blockTime evtLog
    ProcessEvent.logs env tx receipt blockTime rest

/-- Method `ProcessEvent`. -/
def ProcessEvent (env : Env) (tx : Transaction) (receipt : TransactionReceipt)
    (blockTime : Int) : M (Option String) := do
  ProcessEvent.logs env tx receipt blockTime receipt.Logs
  pure none

/-- Method `ProcessMinedTransaction`; the receipt is the one of the transaction
in its block, never nil. -/
def ProcessMinedTransaction (env : Env) (tx : Transaction) (receipt : TransactionReceipt)
    (blockTime : Int) : M (Option String) :=
  if env.processor.SupportedEvents receipt then
    ProcessEvent env tx receipt blockTime
  else if env.processor.SupportedMethod tx then
    ProcessMethod env tx (some receipt) blockTime
  else
    handleEthTransfer env tx (some receipt) blockTime

/-- Method `ProcessPendingTransaction`. -/
def ProcessPendingTransaction (env : Env) (tx : Transaction) : M (Option String) := do
  let blockTime ← timeNowUnix env
  if env.processor.SupportedMethod tx then
    ProcessMethod env tx none blockTime
  else
    handleEthTransfer env tx none blockTime

/-- Method `WatchingPendingTransaction`: the type assertion panics on any input
that is not a transaction. -/
def WatchingPendingTransaction (env : Env) (input : Payload) : M (Option String) :=
  match input with
  | .tx tx => ProcessPendingTransaction env tx
  | _ => haltWith .panic

/-- Method `Sync`. -/
def Sync (env : Env) (blockNumber : Int) : M Unit := do
  let r ← BlockNumber env
  match r with
  | .error _ => Fatalf
  | .ok syncBlock => do
    let w ← getWorld
    let currentBlockNumber := blockNumber + int64 w.l.options.ConfirmBlockNumber
    if syncBlock ≤ currentBlockNumber then do
      Emit .SyncChainComplete (.head syncBlock)
      modifyWorld fun w => { w with l := { w.l with syncComplete := true } }
    else
      pure ()

/-- Statement `go func() { ... }()` of `Start`: one more loop is running; what
it runs is `loop` below. -/
def goLoop : M Unit :=
  modifyWorld fun w => { w with loops := w.loops + 1 }

/-- Method `Start`. -/
def Start : M Unit := do
  let w ← getWorld
  if !w.l.options.Open then
    pure ()
  else do
    modifyWorld fun w => { w with l := { w.l with syncComplete := false } }
    let watcher : Watcher := { Concurrent := false, gen := w.loops }
    modifyWorld fun w => { w with l := { w.l with pendingTxWatcher := some watcher } }
    On .PendingTransaction watcher
    modifyWorld fun w => { w with l := { w.l with
      iterator := some (NewBlockIterator w.l.startBlockNumber w.l.endBlockNumber true
        w.l.options.ConfirmBlockNumber) } }
    goLoop

/-- Statement `l.stop <- true`: the send on the channel of capacity 1 waits
while a value is still in it. -/
def sendStop : M Unit := fun w =>
  if w.l.stop.length < 1 then .ok () { w with l := { w.l with stop := w.l.stop ++ [true] } }
  else .halt .blocked w

/-- Method `Stop`. -/
def Stop : M Unit := do
  let w ← getWorld
  if !w.l.options.Open then
    pure ()
  else do
    Un .PendingTransaction w.l.pendingTxWatcher
    sendStop

/-- Method `ForkProcess`. -/
def ForkProcess (env : Env) (currentBlock : Block) : M Unit := do
  let r ← Detect env currentBlock
  match r with
  | none => pure ()
  | some forkEvent => do
    Stop
    Emit .ChainForkDetected (.fork forkEvent)
    modifyWorld fun w => { w with l := { w.l with startBlockNumber := forkEvent.ForkBlock + 1 } }
    Start

/-- Loop of `ProcessBlock` over `block.Transactions`, from index `idx` on;
`block.Receipts[idx]` panics when the index is out of range. -/
def ProcessBlock.transactions (env : Env) (block : BlockWithTxAndReceipt) :
    Nat → List Transaction → M Unit
  | _, [] => pure ()
  | idx, transaction :: rest =>
    match block.Receipts[idx]? with
    | none => haltWith .panic
    | some receipt => do
      let _ ← ProcessMinedTransaction env transaction receipt block.Timestamp
      ProcessBlock.transactions env block (idx + 1) rest

/-- Method `ProcessBlock`. -/
def ProcessBlock (env : Env) : M Unit := do
  let inter ← Next env
  match inter with
  | .error _ => Fatalf
  | .ok block => do
    let currentBlock : Block :=
      { BlockNumber := block.Number, ParentHash := block.ParentHash, BlockHash := block.Hash,
        CreateTime := block.Timestamp }
    SaveBlock (ConvertDown currentBlock)
    let w ← getWorld
    if w.l.syncComplete == false then
      Sync env block.Number
    ForkProcess env currentBlock
    let blockEvent : BlockEvent := { BlockNumber := block.Number, BlockHash := block.Hash }
    Emit .Block_New (.block blockEvent)
    let r ← GetBlockTransactionCountByHash env block.Hash (toString block.Number)
    match r with
    | .error _ => Fatalf
    | .ok txcnt => do
      let txcntinblock := block.Transactions.length
      if 0 < txcntinblock then do
        if txcnt ≠ (txcntinblock : Int) then
          Fatalf
        ProcessBlock.transactions env block 0 block.Transactions
      Emit .Block_End (.block blockEvent)

/-- Body of the goroutine launched by `Start` (lines 92 to 101 of the source),
cut after `fuel` rounds: a round that finds a value in the stop channel takes
it and leaves the loop; any other round runs `ProcessBlock`. -/
def loop (env : Env) : Nat → M Unit
  | 0 => pure ()
  | fuel + 1 => fun w =>
    match w.l.stop with
    | _ :: rest => .ok () { w with l := { w.l with stop := rest }, loops := w.loops - 1 }
    | [] => (ProcessBlock env >>= fun _ => loop env fuel) w

/-- Method `setBlockNumberRange`.  On an unset `EndBlockNumber` the call
`l.endBlockNumber.Cmp(big.NewInt(0))` dereferences a nil pointer and panics,
after the start height has been assigned and before storage is asked. -/
def setBlockNumberRange (env : Env) : M Unit := fun w =>
  let l1 : ExtractorServiceImpl :=
    { w.l with startBlockNumber := w.l.options.StartBlockNumber }
  match w.l.options.EndBlockNumber with
  | none => .halt .panic { w with l := l1 }
  | some endBlockNumber =>
    let l2 : ExtractorServiceImpl :=
      if endBlockNumber = 0 then { l1 with endBlockNumber := defaultEndBlockNumber }
      else { l1 with endBlockNumber := endBlockNumber }
    match env.FindLatestBlock with
    | .error _ => .ok () { w with l := l2 }
    | .ok latestBlock =>
      .ok () { w with l := { l2 with startBlockNumber := (ConvertUp latestBlock).BlockNumber } }

/-- Constructor `NewExtractorService`: the world holds the new extractor, an
empty bus and no launched loop. -/
def NewExtractorService (env : Env) (options : ExtractorOptions) : Res Unit :=
  setBlockNumberRange env
    { l := { options := options, stop := [], startBlockNumber := 0, endBlockNumber := 0,
             iterator := none, pendingTxWatcher := none, syncComplete := false,
             forkComplete := false, forktest := false }
      calls := { next := 0, head := 0, detect := 0, txcount := 0, now := 0 }
      bus := []
      watchers := []
      saved := []
      loops := 0 }

/-! ## Statements in the words of the specification -/

/-- The three ways of handling a mined transaction. -/
inductive Path where
  | event
  | method
  | transfer
deriving DecidableEq, Repr

/-- Path named by the specification: events first, then the method, then the
fallback transfer. -/
def Path.choose (supportedEvents supportedMethod : Bool) : Path :=
  if supportedEvents then .event else if supportedMethod then .method else .transfer

/-- Handler behind each path for a mined transaction and its receipt. -/
def Path.run (env : Env) (tx : Transaction) (receipt : TransactionReceipt) (blockTime : Int) :
    Path → M (Option String)
  | .event => ProcessEvent env tx receipt blockTime
  | .method => ProcessMethod env tx (some receipt) blockTime
  | .transfer => handleEthTransfer env tx (some receipt) blockTime

/-- A log is recognised when `GetEvent` resolves it. -/
def recognised (env : Env) (evtLog : Log) : Bool :=
  (env.processor.GetEvent evtLog).isSome

/-- The data of a log is well-formed hex text: `0x` followed by whole bytes. -/
def hexWellFormed (evtLog : Log) : Bool :=
  (hexutilDecode evtLog.Data).isSome

/-- Every recognised log of the receipt carries well-formed hex text. -/
def hexOk (env : Env) (receipt : TransactionReceipt) : Bool :=
  receipt.Logs.all fun evtLog => !recognised env evtLog || hexWellFormed evtLog

/-- A recognised log whose data is well-formed, non-empty hex text that the ABI
of the registered event rejects. -/
def abiRejects (env : Env) (evtLog : Log) : Bool :=
  match env.processor.GetEvent evtLog, hexutilDecode evtLog.Data with
  | some event, some data =>
    0 < data.length && !(env.processor.Unpack event data).toBool
  | _, _ => false

/-- A recognised log that decodes: its data is well-formed hex text, empty or
accepted by the ABI of the registered event. -/
def decodes (env : Env) (evtLog : Log) : Bool :=
  match env.processor.GetEvent evtLog, hexutilDecode evtLog.Data with
  | some event, some data =>
    !(0 < data.length) || (env.processor.Unpack event data).toBool
  | _, _ => false

/-- Emission expected for one log: one event, under the topic of its identifier,
for a recognised log that decodes; nothing otherwise. -/
def eventFor (env : Env) (tx : Transaction) (receipt : TransactionReceipt) (blockTime : Int)
    (evtLog : Log) : Option Emission :=
  match env.processor.GetEvent evtLog, hexutilDecode evtLog.Data with
  | some event, some data =>
    if 0 < data.length then
      match env.processor.Unpack event data with
      | .ok decoded =>
        some (.id event.Id, .event (EventData.FullFilled { event with Event := decoded } tx evtLog
          receipt.GasUsed blockTime))
      | .error _ => none
    else some (.id event.Id, .event (event.FullFilled tx evtLog receipt.GasUsed blockTime))
  | _, _ => none

/-- Emissions expected from the method path. -/
def methodEmissions (env : Env) (tx : Transaction) (receipt : Option TransactionReceipt)
    (blockTime : Int) : List Emission :=
  match env.processor.GetMethod tx with
  | none => []
  | some method =>
    [(.id method.Id, .method (method.FullFilled tx (env.processor.getGasAndStatus tx receipt).1
      blockTime (env.processor.getGasAndStatus tx receipt).2))]

/-- Emissions expected from the fallback transfer handler. -/
def transferEmissions (env : Env) (tx : Transaction) (receipt : Option TransactionReceipt)
    (blockTime : Int) : List Emission :=
  (env.processor.handleEthTransfer tx receipt blockTime).1.map fun t =>
    (Topic.EthTransferEvent, Payload.transfer t)

/-- Emissions expected from one mined transaction paired with its receipt. -/
def txEmissions (env : Env) (blockTime : Int) (p : Transaction × TransactionReceipt) :
    List Emission :=
  match Path.choose (env.processor.SupportedEvents p.2) (env.processor.SupportedMethod p.1) with
  | .event => p.2.Logs.filterMap (eventFor env p.1 p.2 blockTime)
  | .method => methodEmissions env p.1 (some p.2) blockTime
  | .transfer => transferEmissions env p.1 (some p.2) blockTime

/-- Error returned for one mined transaction paired with its receipt. -/
def txError (env : Env) (blockTime : Int) (p : Transaction × TransactionReceipt) :
    Option String :=
  match Path.choose (env.processor.SupportedEvents p.2) (env.processor.SupportedMethod p.1) with
  | .event => none
  | .method => none
  | .transfer => (env.processor.handleEthTransfer p.1 (some p.2) blockTime).2

/-- Emissions expected from the transactions of a block: transaction i is
paired with receipt i, in the order of the block. -/
def blockTxEmissions (env : Env) (block : BlockWithTxAndReceipt) : List Emission :=
  ((block.Transactions.zip block.Receipts).map (txEmissions env block.Timestamp)).flatten

/-- Adds emissions at the end of the bus. -/
def World.emit (w : World) (es : List Emission) : World :=
  { w with bus := w.bus ++ es }

/-- Handling the pair cannot panic: on the event path every recognised log of
the receipt carries well-formed hex text. -/
def txSafe (env : Env) (p : Transaction × TransactionReceipt) : Bool :=
  !env.processor.SupportedEvents p.2 || hexOk env p.2

/-- The block carries a receipt for each of its transactions and none of the
pairs can panic. -/
def blockSafe (env : Env) (block : BlockWithTxAndReceipt) : Bool :=
  decide (block.Transactions.length ≤ block.Receipts.length) &&
    (block.Transactions.zip block.Receipts).all (txSafe env)

/-- Steps of `ProcessBlock` on a fetched block up to the fork handling
(lines 158 to 175 of the source). -/
def ProcessBlock.untilFork (env : Env) (block : BlockWithTxAndReceipt) : M Unit := do
  let currentBlock : Block :=
    { BlockNumber := block.Number, ParentHash := block.ParentHash, BlockHash := block.Hash,
      CreateTime := block.Timestamp }
  SaveBlock (ConvertDown currentBlock)
  let w ← getWorld
  if w.l.syncComplete == false then
    Sync env block.Number
  ForkProcess env currentBlock

/-- Steps of `ProcessBlock` on a fetched block from the block-start notification
on (lines 177 to 202 of the source). -/
def ProcessBlock.fromBlockNew (env : Env) (block : BlockWithTxAndReceipt) : M Unit := do
  let blockEvent : BlockEvent := { BlockNumber := block.Number, BlockHash := block.Hash }
  Emit .Block_New (.block blockEvent)
  let r ← GetBlockTransactionCountByHash env block.Hash (toString block.Number)
  match r with
  | .error _ => Fatalf
  | .ok txcnt => do
    let txcntinblock := block.Transactions.length
    if 0 < txcntinblock then do
      if txcnt ≠ (txcntinblock : Int) then
        Fatalf
      ProcessBlock.transactions env block 0 block.Transactions
    Emit .Block_End (.block blockEvent)

/-- World left by a successful `Next` on the cursor `it`. -/
def World.fetched (w : World) (it : BlockIterator) : World :=
  { w with
    calls := { w.calls with next := w.calls.next + 1 }
    l := { w.l with iterator := some { it with currentNumber := it.currentNumber + 1 } } }

/-- Notification that `Sync` adds for a block at height `n` when the node head
is `h`: none while the head is beyond `n` plus the confirmation depth. -/
def syncEmissions (options : ExtractorOptions) (n h : Int) : List Emission :=
  if h ≤ n + int64 options.ConfirmBlockNumber then [(Topic.SyncChainComplete, Payload.head h)]
  else []

/-- Block-start notification of a block. -/
def blockNew (block : BlockWithTxAndReceipt) : Emission :=
  (Topic.Block_New, Payload.block { BlockNumber := block.Number, BlockHash := block.Hash })

/-- Block-end notification of a block. -/
def blockEnd (block : BlockWithTxAndReceipt) : Emission :=
  (Topic.Block_End, Payload.block { BlockNumber := block.Number, BlockHash := block.Hash })

/-- The sync step of `ProcessBlock` does not end in the fatal error: sync is
already marked complete, or the node answers the head query. -/
def headOk (env : Env) (w : World) : Bool :=
  w.l.syncComplete || (env.BlockNumber w.calls.head).toBool

/-- Notification added by the sync step of `ProcessBlock` for a block at height
`n`: nothing once sync is marked complete. -/
def syncPart (env : Env) (w : World) (n : Int) : List Emission :=
  if w.l.syncComplete then []
  else
    match env.BlockNumber w.calls.head with
    | .ok h => syncEmissions w.l.options n h
    | .error _ => []

/-- Notification added by the fork handling for the answer of the detector. -/
def forkPart (fork : Option ForkEvent) : List Emission :=
  match fork with
  | none => []
  | some e => [(Topic.ChainForkDetected, Payload.fork e)]

/-- The send of `Stop` does not wait: the extractor is closed, or no value is
left in the stop channel. -/
def stopFree (w : World) : Bool :=
  !w.l.options.Open || decide (w.l.stop.length < 1)

/-- The `types.Block` built by `ProcessBlock` from a fetched block. -/
def currentBlockOf (block : BlockWithTxAndReceipt) : Block :=
  { BlockNumber := block.Number, ParentHash := block.ParentHash, BlockHash := block.Hash,
    CreateTime := block.Timestamp }

/-- World left by the fork handling of `ForkProcess` for the event `e`, when
the send of `Stop` does not wait: for an opened extractor the stop signal is
sent, the fork notification emitted, the start height set to `e.ForkBlock + 1`
and `Start` run again; a closed extractor only emits and sets the height. -/
def World.restarted (w : World) (e : ForkEvent) : World :=
  if w.l.options.Open then
    { w with
      l := { w.l with
             stop := w.l.stop ++ [true]
             startBlockNumber := e.ForkBlock + 1
             syncComplete := false
             pendingTxWatcher := some { Concurrent := false, gen := w.loops }
             iterator := some (NewBlockIterator (e.ForkBlock + 1) w.l.endBlockNumber true
               w.l.options.ConfirmBlockNumber) }
      bus := w.bus ++ [(Topic.ChainForkDetected, Payload.fork e)]
      watchers := (w.watchers.filter fun p =>
          !(p.1 = Topic.PendingTransaction ∧ some p.2 = w.l.pendingTxWatcher)) ++
        [(Topic.PendingTransaction, { Concurrent := false, gen := w.loops })]
      loops := w.loops + 1 }
  else
    { w with
      l := { w.l with startBlockNumber := e.ForkBlock + 1 }
      bus := w.bus ++ [(Topic.ChainForkDetected, Payload.fork e)] }

/-- World after one more call of the fork detector. -/
def World.detected (w : World) : World :=
  { w with calls := { w.calls with detect := w.calls.detect + 1 } }

/-- World after one more query of the transaction count. -/
def World.counted (w : World) : World :=
  { w with calls := { w.calls with txcount := w.calls.txcount + 1 } }

/-- Block handed out by `Next` when the node serves `b` for the height `n`. -/
def BlockWithTxAndReceipt.atHeight (b : BlockWithTxAndReceipt) (n : Int) :
    BlockWithTxAndReceipt :=
  { b with Number := n }

/-- Topics under which the handling of a transaction emits: the identifier of
a method or event, and the fallback transfer. -/
def Topic.ofTransaction : Topic → Bool
  | .id _ => true
  | .EthTransferEvent => true
  | _ => false

/-- Topics under which `ProcessBlock` emits after the fork handling. -/
def Topic.ofBlock : Topic → Bool
  | .Block_New => true
  | .Block_End => true
  | t => t.ofTransaction

/-- World after `k` more queries of the transaction count and the emissions
`d`. -/
def World.tail (w : World) (k : Nat) (d : List Emission) : World :=
  { w with calls := { w.calls with txcount := w.calls.txcount + k }, bus := w.bus ++ d }

/-- An operation that, however it ends, only queries the transaction count and
emits under topics accepted by `P`. -/
def EmitsOnly {α : Type} (P : Topic → Bool) (x : M α) : Prop :=
  ∀ w, ∃ k d, (x w).world = w.tail k d ∧ ∀ e ∈ d, P e.1 = true

/-- Number of sync-complete notifications on a bus. -/
def syncCount (bus : List Emission) : Nat :=
  bus.countP fun e => e.1 == Topic.SyncChainComplete

/-- What `ProcessBlock` can have changed, on a block without fork, by the time
it reaches the block-start notification or ends before it: at most one block
fetched at the cursor height and saved, and at most one sync-complete
notification, emitted only while sync was not marked complete. -/
structure NoForkHead (w w1 : World) : Prop where
  options : w1.l.options = w.l.options
  stop : w1.l.stop = w.l.stop
  loops : w1.loops = w.loops
  detect : w.calls.detect ≤ w1.calls.detect
  sync : (w1.bus = w.bus ∧ w1.l.syncComplete = w.l.syncComplete) ∨
    (w.l.syncComplete = false ∧ w1.l.syncComplete = true ∧
      ∃ h, w1.bus = w.bus ++ [(Topic.SyncChainComplete, Payload.head h)])
  saved : (w1.l.iterator = w.l.iterator ∧ w1.saved = w.saved) ∨
    (∃ it x, w.l.iterator = some it ∧
      w1.l.iterator = some { it with currentNumber := it.currentNumber + 1 } ∧
      x.BlockNumber = it.currentNumber ∧ w1.saved = w.saved ++ [x])

/-- Sync-complete notifications already on the bus, plus the one that can still
come while sync is not marked complete. -/
def syncDebt (w : World) : Nat :=
  syncCount w.bus + (if w.l.syncComplete then 0 else 1)

/-- World after one more reading of the wall clock. -/
def World.clocked (w : World) : World :=
  { w with calls := { w.calls with now := w.calls.now + 1 } }

/-- Emissions expected from a pending transaction observed at time `now`: the
method path when the method is supported, the fallback transfer otherwise, both
without receipt. -/
def pendingEmissions (env : Env) (tx : Transaction) (now : Int) : List Emission :=
  if env.processor.SupportedMethod tx then methodEmissions env tx none now
  else transferEmissions env tx none now

/-- Error returned for a pending transaction observed at time `now`. -/
def pendingError (env : Env) (tx : Transaction) (now : Int) : Option String :=
  if env.processor.SupportedMethod tx then none
  else (env.processor.handleEthTransfer tx none now).2

/-- Start height named by the specification for a start-up: the number of the
latest persisted block when storage returns one, the configured start height
when it reports that there is none. -/
def resumeHeight (latest : Except String DaoBlock) (configured : Int) : Int :=
  match latest with
  | .ok block => block.BlockNumber
  | .error _ => configured

/-- Sample configuration: opened, start height 7, unbounded end, confirmation
depth 3. -/
def sampleOptions : ExtractorOptions :=
  { Open := true, StartBlockNumber := 7, EndBlockNumber := some 0, ConfirmBlockNumber := 3,
    Debug := false }

/-! ## A sample deployment, used to run the operations on concrete inputs -/

/-- Sample registry: the contract at address `token` is known; its logs are the
event `Transfer`, whose ABI takes exactly two bytes of data, and calls to it are
the method `transfer`. -/
def sampleProcessor : AbiProcessor :=
  { SupportedEvents := fun receipt => receipt.Logs.any fun evtLog => evtLog.Address == "token"
    SupportedMethod := fun tx => tx.To == "token"
    GetMethod := fun tx =>
      if tx.To == "token" then
        some { Id := "transfer", Name := "transfer", TxHash := "", Gas := 0, BlockTime := 0,
               Status := 0 }
      else none
    GetEvent := fun evtLog =>
      if evtLog.Address == "token" then
        some { Id := "0xddf2", Name := "Transfer", Event := [], TxHash := "", LogData := "",
               GasUsed := 0, BlockTime := 0 }
      else none
    Unpack := fun _ data => if data.length = 2 then .ok data else .error "abi: wrong length"
    getGasAndStatus := fun _ receipt =>
      match receipt with
      | some r => (r.GasUsed, 1)
      | none => (0, 0)
    handleEthTransfer := fun tx receipt blockTime =>
      ([{ TxHash := tx.Hash, Value := tx.Value, BlockTime := blockTime,
          Status := if receipt.isSome then 1 else 0 }], none) }

/-- Sample log of the known contract with two bytes of data. -/
def goodLog : Log := { Address := "token", Topics := ["0xddf2"], Data := "0x0102" }

/-- Sample log of the known contract whose three bytes the ABI rejects. -/
def rejectedLog : Log := { Address := "token", Topics := ["0xddf2"], Data := "0x010203" }

/-- Sample log of the known contract whose data is the empty string, which is
no hex text. -/
def brokenLog : Log := { Address := "token", Topics := ["0xddf2"], Data := "" }

/-- Sample log of an unknown contract. -/
def foreignLog : Log := { Address := "other", Topics := ["0xffff"], Data := "0x" }

/-- Sample transaction calling the known contract. -/
def callTx : Transaction := { Hash := "0xa1", To := "token", Input := "0xa9059cbb", Value := 0 }

/-- Sample transaction sending value to an unknown address. -/
def plainTx : Transaction := { Hash := "0xb2", To := "alice", Input := "0x", Value := 5 }

/-- Sample block at height 7 with the given transactions and receipts. -/
def sampleBlock (txs : List Transaction) (receipts : List TransactionReceipt) :
    BlockWithTxAndReceipt :=
  { Number := 7, Hash := "0xh7", ParentHash := "0xh6", Timestamp := 1500, Transactions := txs,
    Receipts := receipts }

/-- Sample collaborators: the node head is 20, the node serves `block` at every
height and reports `txcnt` transactions for it, the detector answers `fork`,
the wall clock reads 1700 and storage holds no block. -/
def sampleEnv (block : BlockWithTxAndReceipt) (txcnt : Int) (fork : Option ForkEvent) : Env :=
  { processor := sampleProcessor
    Detect := fun _ _ => fork
    BlockNumber := fun _ => .ok 20
    GetBlockTransactionCountByHash := fun _ _ _ => .ok txcnt
    GetBlock := fun _ _ => .ok block
    Now := fun _ => 1700
    FindLatestBlock := .error "record not found" }

/-- Sample collaborators for a run with one fork: the node head is 9, every
block is empty, and the detector reports a fork at height 5 on its first call
only. -/
def forkOnceEnv : Env :=
  { processor := sampleProcessor
    Detect := fun k _ => if k = 0 then some ⟨5, 7⟩ else none
    BlockNumber := fun _ => .ok 9
    GetBlockTransactionCountByHash := fun _ _ _ => .ok 0
    GetBlock := fun _ _ => .ok (sampleBlock [] [])
    Now := fun _ => 1700
    FindLatestBlock := .error "record not found" }

/-- Sample collaborators for a start-up over a storage whose latest block is at
height 42. -/
def resumeEnv : Env :=
  { forkOnceEnv with FindLatestBlock := .ok ⟨42, "0xh41", "0xh42", 900⟩ }

/-- Sample extractor, opened, with confirmation depth 3, started at height 7 and
with nothing waiting in its stop channel. -/
def sampleService (syncComplete : Bool) : ExtractorServiceImpl :=
  { options := { Open := true, StartBlockNumber := 7, EndBlockNumber := some 0,
                 ConfirmBlockNumber := 3, Debug := false }
    stop := []
    startBlockNumber := 7
    endBlockNumber := defaultEndBlockNumber
    iterator := some (NewBlockIterator 7 defaultEndBlockNumber true 3)
    pendingTxWatcher := some { Concurrent := false, gen := 0 }
    syncComplete := syncComplete
    forkComplete := false
    forktest := false }

/-- Sample world: the sample extractor after its first `Start`, before any call
to a collaborator. -/
def sampleWorld (syncComplete : Bool) : World :=
  { l := sampleService syncComplete
    calls := { next := 0, head := 0, detect := 0, txcount := 0, now := 0 }
    bus := []
    watchers := [(Topic.PendingTransaction, { Concurrent := false, gen := 0 })]
    saved := []
    loops := 1 }

/-- Sample world before sync is complete, with the confirmation depth set to
`depth`. -/
def deepWorld (depth : Nat) : World :=
  { sampleWorld false with
    l := { sampleService false with
           options := { sampleOptions with ConfirmBlockNumber := depth } } }

/-- Sample world left by the first loop of a run with one fork: block 7
processed, on which sync completed and the fork was declared, the restart done
and the stop signal taken by the loop, which has ended. -/
def restartedWorld : World :=
  (loop forkOnceEnv 2 (sampleWorld false)).world

/-! ## Basic facts on sequencing -/

theorem bind_run {α β : Type} (x : M α) (f : α → M β) (w : World) :
    (x >>= f) w = match x w with
      | .ok a w1 => f a w1
      | .halt h w1 => .halt h w1 := rfl

theorem pure_run {α : Type} (a : α) (w : World) : (pure a : M α) w = .ok a w := rfl

theorem Emit_run (t : Topic) (d : Payload) (w : World) :
    Emit t d w = .ok () { w with bus := w.bus ++ [(t, d)] } := rfl

/-! ## Mined transactions: choice of the path -/

/-- C4: `ProcessMinedTransaction` runs exactly the handler of the path chosen by
priority (events, else method, else fallback transfer) and yields the outcome
of that handler: same returned error, same world. -/
theorem ProcessMinedTransaction_path (env : Env) (tx : Transaction)
    (receipt : TransactionReceipt) (blockTime : Int) :
    ProcessMinedTransaction env tx receipt blockTime =
      Path.run env tx receipt blockTime
        (Path.choose (env.processor.SupportedEvents receipt) (env.processor.SupportedMethod tx)) := by
  unfold ProcessMinedTransaction Path.choose
  cases env.processor.SupportedEvents receipt <;> cases env.processor.SupportedMethod tx <;> rfl

/-! ## Logs of a receipt -/

theorem World.emit_nil (w : World) : w.emit [] = w := by
  simp [World.emit]

theorem World.emit_emit (w : World) (a b : List Emission) :
    (w.emit a).emit b = w.emit (a ++ b) := by
  simp [World.emit, List.append_assoc]

theorem MustDecode_run (input : String) (w : World) :
    MustDecode input w = match hexutilDecode input with
      | some b => .ok b w
      | none => .halt .panic w := by
  unfold MustDecode
  cases hexutilDecode input <;> rfl

/-- One round of the loop over the logs: a recognised log whose data is no hex
text panics; every other log adds what `eventFor` names and goes on. -/
theorem ProcessEvent_onLog_run (env : Env) (tx : Transaction) (receipt : TransactionReceipt)
    (blockTime : Int) (evtLog : Log) (w : World) :
    ProcessEvent.onLog env tx receipt blockTime evtLog w =
      if recognised env evtLog && !hexWellFormed evtLog then .halt .panic w
      else .ok () (w.emit (eventFor env tx receipt blockTime evtLog).toList) := by
  unfold ProcessEvent.onLog recognised hexWellFormed eventFor
  cases hg : env.processor.GetEvent evtLog with
  | none => simp [pure_run, World.emit_nil]
  | some event =>
    cases hd : hexutilDecode evtLog.Data with
    | none => simp [bind_run, MustDecode_run, hd]
    | some data =>
      simp only [bind_run, MustDecode_run, hd]
      by_cases hlen : 0 < data.length
      · cases hu : env.processor.Unpack event data with
        | error e => simp [hlen, hu, pure_run, World.emit_nil]
        | ok decoded => simp [hlen, hu, Emit_run, World.emit]
      · simp [hlen, Emit_run, World.emit]

/-- The loop over the logs of a receipt whose recognised logs all carry hex
text returns, having added one emission per log that `eventFor` names. -/
theorem ProcessEvent_logs_run (env : Env) (tx : Transaction) (receipt : TransactionReceipt)
    (blockTime : Int) (logs : List Log) (w : World)
    (h : ∀ evtLog ∈ logs, recognised env evtLog = true → hexWellFormed evtLog = true) :
    ProcessEvent.logs env tx receipt blockTime logs w =
      .ok () (w.emit (logs.filterMap (eventFor env tx receipt blockTime))) := by
  induction logs generalizing w with
  | nil => simp [ProcessEvent.logs, pure_run, World.emit_nil]
  | cons evtLog rest ih =>
    have h1 : (recognised env evtLog && !hexWellFormed evtLog) = false := by
      have := h evtLog (List.mem_cons_self _ _)
      cases hr : recognised env evtLog <;> simp_all
    have h2 : ∀ x ∈ rest, recognised env x = true → hexWellFormed x = true :=
      fun x hx => h x (List.mem_cons_of_mem _ hx)
    simp only [ProcessEvent.logs, bind_run, ProcessEvent_onLog_run, h1]
    simp only [Bool.false_eq_true, if_false]
    rw [ih _ h2, World.emit_emit]
    cases he : eventFor env tx receipt blockTime evtLog <;> simp [List.filterMap_cons, he]

theorem ProcessEvent_run (env : Env) (tx : Transaction) (receipt : TransactionReceipt)
    (blockTime : Int) (w : World) (h : hexOk env receipt = true) :
    ProcessEvent env tx receipt blockTime w =
      .ok none (w.emit (receipt.Logs.filterMap (eventFor env tx receipt blockTime))) := by
  have h1 : ∀ evtLog ∈ receipt.Logs,
      recognised env evtLog = true → hexWellFormed evtLog = true := by
    intro evtLog hmem hr
    have := (List.all_eq_true.mp h) evtLog hmem
    simpa [hr] using this
  simp [ProcessEvent, bind_run, ProcessEvent_logs_run env tx receipt blockTime _ w h1, pure_run]

theorem eventFor_of_abiRejects (env : Env) (tx : Transaction) (receipt : TransactionReceipt)
    (blockTime : Int) (evtLog : Log) (h : abiRejects env evtLog = true) :
    eventFor env tx receipt blockTime evtLog = none := by
  unfold abiRejects at h
  unfold eventFor
  cases hg : env.processor.GetEvent evtLog with
  | none => simp
  | some event =>
    cases hd : hexutilDecode evtLog.Data with
    | none => simp
    | some data =>
      simp only [hg, hd, Bool.and_eq_true, decide_eq_true_eq, Bool.not_eq_true'] at h
      cases hu : env.processor.Unpack event data with
      | error e => simp [h.1, hu]
      | ok decoded => simp [hu, Except.toBool] at h

theorem eventFor_of_not_decodes (env : Env) (tx : Transaction) (receipt : TransactionReceipt)
    (blockTime : Int) (evtLog : Log) (h : decodes env evtLog = false) :
    eventFor env tx receipt blockTime evtLog = none := by
  unfold decodes at h
  unfold eventFor
  cases hg : env.processor.GetEvent evtLog with
  | none => simp
  | some event =>
    cases hd : hexutilDecode evtLog.Data with
    | none => simp
    | some data =>
      simp only [hg, hd, Bool.or_eq_false_iff, Bool.not_eq_false', decide_eq_true_eq] at h
      cases hu : env.processor.Unpack event data with
      | error e => simp [h.1, hu]
      | ok decoded => simp [hu, Except.toBool] at h

theorem eventFor_of_decodes (env : Env) (tx : Transaction) (receipt : TransactionReceipt)
    (blockTime : Int) (evtLog : Log) (event : EventData)
    (hg : env.processor.GetEvent evtLog = some event) (h : decodes env evtLog = true) :
    ∃ e : EventData, eventFor env tx receipt blockTime evtLog = some (.id event.Id, .event e) ∧
      e.Id = event.Id ∧ e.TxHash = tx.Hash := by
  unfold decodes at h
  unfold eventFor
  cases hd : hexutilDecode evtLog.Data with
  | none => simp [hg, hd] at h
  | some data =>
    simp only [hg, hd] at h ⊢
    by_cases hlen : 0 < data.length
    · cases hu : env.processor.Unpack event data with
      | error e => simp [hlen, hu, Except.toBool] at h
      | ok decoded =>
        exact ⟨EventData.FullFilled { event with Event := decoded } tx evtLog receipt.GasUsed
          blockTime, by simp [hlen], rfl, rfl⟩
    · exact ⟨event.FullFilled tx evtLog receipt.GasUsed blockTime, by simp [hlen], rfl, rfl⟩

/-! ## Claims on `ProcessEvent` -/

/-- C6, as amended: in a receipt whose recognised logs all carry well-formed hex
text, a log whose data the ABI of the registered event rejects is the only one
skipped: no event is emitted for it, the logs before and after it are emitted as
if it were absent, `ProcessEvent` returns without error, and the loop over the
transactions of the block goes on with the next transaction. -/
theorem ProcessEvent_skips_rejected_log (env : Env) (tx : Transaction)
    (receipt : TransactionReceipt) (blockTime : Int) (w : World)
    (before after : List Log) (bad : Log)
    (hhex : hexOk env receipt = true)
    (hlogs : receipt.Logs = before ++ bad :: after)
    (hbad : abiRejects env bad = true) :
    eventFor env tx receipt blockTime bad = none ∧
    ProcessEvent env tx receipt blockTime w =
      .ok none (w.emit (before.filterMap (eventFor env tx receipt blockTime) ++
        after.filterMap (eventFor env tx receipt blockTime))) ∧
    ∀ (block : BlockWithTxAndReceipt) (idx : Nat) (rest : List Transaction),
      block.Receipts[idx]? = some receipt → env.processor.SupportedEvents receipt = true →
      ProcessBlock.transactions env block idx (tx :: rest) w =
        ProcessBlock.transactions env block (idx + 1) rest
          (w.emit (before.filterMap (eventFor env tx receipt block.Timestamp) ++
            after.filterMap (eventFor env tx receipt block.Timestamp))) := by
  have hnone : ∀ bt, eventFor env tx receipt bt bad = none :=
    fun bt => eventFor_of_abiRejects env tx receipt bt bad hbad
  have hrun : ∀ bt v, ProcessEvent env tx receipt bt v =
      .ok none (v.emit (before.filterMap (eventFor env tx receipt bt) ++
        after.filterMap (eventFor env tx receipt bt))) := by
    intro bt v
    rw [ProcessEvent_run env tx receipt bt v hhex, hlogs]
    simp [List.filterMap_append, List.filterMap_cons, hnone bt]
  refine ⟨hnone blockTime, hrun blockTime w, ?_⟩
  intro block idx rest hidx hsup
  simp [ProcessBlock.transactions, hidx, bind_run, ProcessMinedTransaction, hsup, hrun]

/-- Witness of C6 as amended: a receipt with a sound log, a rejected log and
another sound log. -/
theorem ProcessEvent_skips_rejected_log_witness :
    eventFor (sampleEnv (sampleBlock [] []) 0 none) callTx ⟨1, 21000, [goodLog, rejectedLog, goodLog]⟩
      1500 rejectedLog = none ∧
    ProcessEvent (sampleEnv (sampleBlock [] []) 0 none) callTx
        ⟨1, 21000, [goodLog, rejectedLog, goodLog]⟩ 1500 (sampleWorld true) =
      .ok none ((sampleWorld true).emit
        ([goodLog].filterMap (eventFor (sampleEnv (sampleBlock [] []) 0 none) callTx
            ⟨1, 21000, [goodLog, rejectedLog, goodLog]⟩ 1500) ++
          [goodLog].filterMap (eventFor (sampleEnv (sampleBlock [] []) 0 none) callTx
            ⟨1, 21000, [goodLog, rejectedLog, goodLog]⟩ 1500))) :=
  have h := ProcessEvent_skips_rejected_log (sampleEnv (sampleBlock [] []) 0 none) callTx
    ⟨1, 21000, [goodLog, rejectedLog, goodLog]⟩ 1500 (sampleWorld true) [goodLog] [goodLog]
    rejectedLog (by decide) rfl (by decide)
  ⟨h.1, h.2.1⟩

/-- Counterexample to C6 as stated: a recognised log whose data is the empty
string cannot be decoded, yet it is not skipped: `MustDecode` panics, so that
`ProcessEvent` does not return, the sound log after it is never emitted, and the
loop over the transactions of the block stops there, before the plain transfer
that follows. -/
theorem ProcessEvent_broken_hex_panics :
    recognised (sampleEnv (sampleBlock [] []) 0 none) brokenLog = true ∧
    hexutilDecode brokenLog.Data = none ∧
    ProcessEvent (sampleEnv (sampleBlock [] []) 0 none) callTx ⟨1, 21000, [brokenLog, goodLog]⟩
        1500 (sampleWorld true) = .halt .panic (sampleWorld true) ∧
    ProcessBlock.transactions (sampleEnv (sampleBlock [] []) 0 none)
        (sampleBlock [callTx, plainTx] [⟨1, 21000, [brokenLog, goodLog]⟩, ⟨1, 21000, []⟩]) 0
        [callTx, plainTx] (sampleWorld true) = .halt .panic (sampleWorld true) := by
  decide!

/-- C7, as amended: for a receipt whose recognised logs all carry well-formed
hex text, with any mix of recognised and unrecognised logs, `ProcessEvent`
returns without error and adds to the bus, in the order of the logs, nothing
for a log that `GetEvent` does not recognise or that does not decode, and
exactly one event, under the topic of the identifier of its event, for each
recognised log that decodes. -/
theorem ProcessEvent_emits_per_log (env : Env) (tx : Transaction)
    (receipt : TransactionReceipt) (blockTime : Int) (w : World)
    (hhex : hexOk env receipt = true) :
    ProcessEvent env tx receipt blockTime w =
      .ok none (w.emit (receipt.Logs.filterMap (eventFor env tx receipt blockTime))) ∧
    (∀ evtLog, env.processor.GetEvent evtLog = none →
      eventFor env tx receipt blockTime evtLog = none) ∧
    (∀ evtLog, decodes env evtLog = false →
      eventFor env tx receipt blockTime evtLog = none) ∧
    (∀ evtLog event, env.processor.GetEvent evtLog = some event → decodes env evtLog = true →
      ∃ e : EventData,
        eventFor env tx receipt blockTime evtLog = some (.id event.Id, .event e) ∧
        e.Id = event.Id ∧ e.TxHash = tx.Hash) := by
  refine ⟨ProcessEvent_run env tx receipt blockTime w hhex, ?_, ?_, ?_⟩
  · intro evtLog hg
    simp [eventFor, hg]
  · exact fun evtLog h => eventFor_of_not_decodes env tx receipt blockTime evtLog h
  · exact fun evtLog event hg h => eventFor_of_decodes env tx receipt blockTime evtLog event hg h

/-- Witness of C7 as amended: a receipt mixing a foreign log, a sound log, a
rejected log and another sound log. -/
theorem ProcessEvent_emits_per_log_witness :
    ProcessEvent (sampleEnv (sampleBlock [] []) 0 none) callTx
        ⟨1, 21000, [foreignLog, goodLog, rejectedLog, goodLog]⟩ 1500 (sampleWorld true) =
      .ok none ((sampleWorld true).emit
        ([foreignLog, goodLog, rejectedLog, goodLog].filterMap
          (eventFor (sampleEnv (sampleBlock [] []) 0 none) callTx
            ⟨1, 21000, [foreignLog, goodLog, rejectedLog, goodLog]⟩ 1500))) :=
  (ProcessEvent_emits_per_log (sampleEnv (sampleBlock [] []) 0 none) callTx
    ⟨1, 21000, [foreignLog, goodLog, rejectedLog, goodLog]⟩ 1500 (sampleWorld true)
    (by decide)).1

/-- Counterexample to C7 as stated: in a receipt whose first recognised log
carries the text `0x1` (half a byte) and whose second log is recognised and
decodes, `ProcessEvent` panics in `MustDecode` on the first log: it does not
return, and no event is emitted for the second log. -/
theorem ProcessEvent_half_byte_panics :
    decodes (sampleEnv (sampleBlock [] []) 0 none) goodLog = true ∧
    ProcessEvent (sampleEnv (sampleBlock [] []) 0 none) callTx
        ⟨1, 21000, [{ Address := "token", Topics := ["0xddf2"], Data := "0x1" }, goodLog]⟩
        1500 (sampleWorld true) = .halt .panic (sampleWorld true) := by
  decide

/-! ## Transactions of a block -/

theorem ProcessMethod_run (env : Env) (tx : Transaction) (receipt : Option TransactionReceipt)
    (blockTime : Int) (w : World) :
    ProcessMethod env tx receipt blockTime w =
      .ok none (w.emit (methodEmissions env tx receipt blockTime)) := by
  unfold ProcessMethod methodEmissions
  cases env.processor.GetMethod tx with
  | none => simp [pure_run, World.emit_nil]
  | some method => simp [bind_run, Emit_run, pure_run, World.emit]

theorem handleEthTransfer_run (env : Env) (tx : Transaction)
    (receipt : Option TransactionReceipt) (blockTime : Int) (w : World) :
    handleEthTransfer env tx receipt blockTime w =
      .ok (env.processor.handleEthTransfer tx receipt blockTime).2
        (w.emit (transferEmissions env tx receipt blockTime)) := rfl

theorem ProcessMinedTransaction_run (env : Env) (tx : Transaction)
    (receipt : TransactionReceipt) (blockTime : Int) (w : World)
    (h : txSafe env (tx, receipt) = true) :
    ProcessMinedTransaction env tx receipt blockTime w =
      .ok (txError env blockTime (tx, receipt)) (w.emit (txEmissions env blockTime (tx, receipt))) := by
  unfold ProcessMinedTransaction txError txEmissions Path.choose
  unfold txSafe at h
  cases hs : env.processor.SupportedEvents receipt with
  | true =>
    have hh : hexOk env receipt = true := by simpa [hs] using h
    simp [ProcessEvent_run env tx receipt blockTime w hh]
  | false =>
    cases hm : env.processor.SupportedMethod tx with
    | true => simp [ProcessMethod_run]
    | false => simp [handleEthTransfer_run]

theorem ProcessBlock_transactions_run (env : Env) (block : BlockWithTxAndReceipt)
    (txs : List Transaction) (idx : Nat) (w : World)
    (hlen : txs.length ≤ (block.Receipts.drop idx).length)
    (hsafe : ∀ p ∈ txs.zip (block.Receipts.drop idx), txSafe env p = true) :
    ProcessBlock.transactions env block idx txs w =
      .ok () (w.emit ((txs.zip (block.Receipts.drop idx)).map
        (txEmissions env block.Timestamp)).flatten) := by
  induction txs generalizing idx w with
  | nil => simp [ProcessBlock.transactions, pure_run, World.emit_nil]
  | cons tx rest ih =>
    cases hd : block.Receipts.drop idx with
    | nil => simp [hd] at hlen
    | cons receipt rs =>
      have hget : block.Receipts[idx]? = some receipt := by
        have := List.getElem?_drop block.Receipts idx 0
        simpa [hd] using this.symm
      have hdrop : block.Receipts.drop (idx + 1) = rs := by
        have : block.Receipts.drop (idx + 1) = (block.Receipts.drop idx).drop 1 := by
          rw [List.drop_drop]
        rw [this, hd]; rfl
      have hs1 : txSafe env (tx, receipt) = true :=
        hsafe (tx, receipt) (by simp [hd])
      have hlen2 : rest.length ≤ (block.Receipts.drop (idx + 1)).length := by
        rw [hdrop]; simpa [hd] using hlen
      have hsafe2 : ∀ p ∈ rest.zip (block.Receipts.drop (idx + 1)), txSafe env p = true := by
        intro p hp
        rw [hdrop] at hp
        exact hsafe p (by simp [hd, hp])
      simp only [ProcessBlock.transactions, hget, bind_run,
        ProcessMinedTransaction_run env tx receipt block.Timestamp w hs1]
      rw [ih (idx + 1) _ hlen2 hsafe2, World.emit_emit, hdrop]
      simp [List.zip_cons_cons]

/-! ## One block -/

theorem bind_assoc_run {α β γ : Type} (x : M α) (f : α → M β) (g : β → M γ) :
    (x >>= f) >>= g = x >>= fun a => f a >>= g := by
  funext w
  simp only [bind_run]
  cases x w <;> rfl

theorem pure_bind_run {α β : Type} (a : α) (f : α → M β) : (pure a : M α) >>= f = f a := rfl

theorem ite_bind_run {α β : Type} (c : Prop) [Decidable c] (x y : M α) (f : α → M β) :
    (if c then x else y) >>= f = if c then x >>= f else y >>= f := by
  split <;> rfl

theorem getWorld_run (w : World) : getWorld w = .ok w w := rfl

theorem modifyWorld_run (f : World → World) (w : World) : modifyWorld f w = .ok () (f w) := rfl

theorem SaveBlock_run (entity : DaoBlock) (w : World) :
    SaveBlock entity w = .ok () { w with saved := w.saved ++ [entity] } := rfl

theorem ProcessBlock_split (env : Env) (w : World) (it : BlockIterator)
    (b : BlockWithTxAndReceipt) (hit : w.l.iterator = some it)
    (hget : env.GetBlock w.calls.next it.currentNumber = .ok b) :
    ProcessBlock env w =
      (ProcessBlock.untilFork env { b with Number := it.currentNumber } >>= fun _ =>
        ProcessBlock.fromBlockNew env { b with Number := it.currentNumber }) (w.fetched it) := by
  have hnext : Next env w = .ok (.ok { b with Number := it.currentNumber }) (w.fetched it) := by
    simp [Next, hit, hget, World.fetched]
  unfold ProcessBlock ProcessBlock.untilFork ProcessBlock.fromBlockNew
  rw [bind_run, hnext]
  simp only [bind_assoc_run, pure_bind_run, ite_bind_run]

theorem Sync_run (env : Env) (n : Int) (w : World) :
    Sync env n w =
      match env.BlockNumber w.calls.head with
      | .error _ => .halt .fatal { w with calls := { w.calls with head := w.calls.head + 1 } }
      | .ok h =>
        if h ≤ n + int64 w.l.options.ConfirmBlockNumber then
          .ok () { w with
            calls := { w.calls with head := w.calls.head + 1 }
            bus := w.bus ++ [(Topic.SyncChainComplete, Payload.head h)]
            l := { w.l with syncComplete := true } }
        else .ok () { w with calls := { w.calls with head := w.calls.head + 1 } } := by
  unfold Sync
  simp only [bind_run, BlockNumber]
  cases env.BlockNumber w.calls.head with
  | error e => rfl
  | ok h =>
    by_cases hle : h ≤ n + int64 w.l.options.ConfirmBlockNumber
    · simp [hle, bind_run, getWorld_run, Emit_run, modifyWorld_run]
    · simp [hle, bind_run, getWorld_run, pure_run]

theorem ForkProcess_none (env : Env) (currentBlock : Block) (w : World)
    (h : env.Detect w.calls.detect currentBlock = none) :
    ForkProcess env currentBlock w = .ok () w.detected := by
  simp [ForkProcess, bind_run, Detect, h, pure_run, World.detected]

theorem ForkProcess_fork (env : Env) (currentBlock : Block) (w : World) (e : ForkEvent)
    (h : env.Detect w.calls.detect currentBlock = some e) (hs : stopFree w = true) :
    ForkProcess env currentBlock w = .ok () (w.detected.restarted e) := by
  unfold stopFree at hs
  cases ho : w.l.options.Open with
  | false =>
    simp [ForkProcess, bind_run, Detect, h, Stop, Start, Emit_run, modifyWorld_run, getWorld_run,
      pure_run, ho, World.detected, World.restarted]
  | true =>
    have hlen : w.l.stop.length < 1 := by simpa [ho] using hs
    simp [ForkProcess, bind_run, Detect, h, Stop, Start, Emit_run, modifyWorld_run, getWorld_run,
      pure_run, On, Un, sendStop, goLoop, ho, World.detected, World.restarted, hlen]

theorem ForkProcess_blocked (env : Env) (currentBlock : Block) (w : World) (e : ForkEvent)
    (h : env.Detect w.calls.detect currentBlock = some e) (hs : stopFree w = false) :
    (ForkProcess env currentBlock w).returned = false := by
  unfold stopFree at hs
  have ho : w.l.options.Open = true := by
    cases ho : w.l.options.Open <;> simp [ho] at hs ⊢
  have hlen : ¬ w.l.stop.length < 1 := by simpa [ho] using hs
  simp [ForkProcess, bind_run, Detect, h, Stop, getWorld_run, Un, sendStop, modifyWorld_run, ho,
    hlen, Res.returned]

theorem untilFork_run (env : Env) (block : BlockWithTxAndReceipt) (v : World)
    (hhead : headOk env v = true)
    (hstop : env.Detect v.calls.detect (currentBlockOf block) = none ∨ stopFree v = true) :
    ∃ v', ProcessBlock.untilFork env block v = .ok () v' ∧
      v'.bus = v.bus ++ syncPart env v block.Number ++
        forkPart (env.Detect v.calls.detect (currentBlockOf block)) ∧
      v'.calls.txcount = v.calls.txcount := by
  have key : ∀ u : World, u.calls.detect = v.calls.detect → stopFree u = stopFree v →
      ∃ v', ForkProcess env (currentBlockOf block) u = .ok () v' ∧
        v'.bus = u.bus ++ forkPart (env.Detect v.calls.detect (currentBlockOf block)) ∧
        v'.calls.txcount = u.calls.txcount := by
    intro u hd hsf
    cases hdet : env.Detect v.calls.detect (currentBlockOf block) with
    | none =>
      refine ⟨u.detected, ForkProcess_none env _ u (by rw [hd]; exact hdet), ?_, rfl⟩
      simp [forkPart, World.detected]
    | some e =>
      have hs : stopFree u = true := by
        rw [hsf]
        rcases hstop with h | h
        · rw [hdet] at h; cases h
        · exact h
      refine ⟨u.detected.restarted e, ForkProcess_fork env _ u e (by rw [hd]; exact hdet) hs, ?_, ?_⟩
      · unfold World.restarted; split <;> simp [forkPart, World.detected]
      · unfold World.restarted; split <;> simp [World.detected]
  unfold ProcessBlock.untilFork
  simp only [bind_run, SaveBlock_run, getWorld_run]
  cases hsc : v.l.syncComplete with
  | true =>
    simp only [Bool.true_eq_false, pure_run, beq_iff_eq, if_false]
    obtain ⟨v', h1, h2, h3⟩ := key { v with saved := v.saved ++
      [ConvertDown (currentBlockOf block)] } rfl rfl
    refine ⟨v', h1, ?_, h3⟩
    rw [h2]; simp [syncPart, hsc]
  | false =>
    simp only [beq_self_eq_true, if_true, bind_run, Sync_run]
    unfold headOk at hhead
    cases hb : env.BlockNumber v.calls.head with
    | error err => simp [hsc, hb, Except.toBool] at hhead
    | ok h =>
      by_cases hle : h ≤ block.Number + int64 v.l.options.ConfirmBlockNumber
      · simp only [hb, hle, if_true]
        obtain ⟨v', h1, h2, h3⟩ := key
          { v with
            saved := v.saved ++ [ConvertDown (currentBlockOf block)]
            calls := { v.calls with head := v.calls.head + 1 }
            bus := v.bus ++ [(Topic.SyncChainComplete, Payload.head h)]
            l := { v.l with syncComplete := true } } rfl rfl
        refine ⟨v', h1, ?_, h3⟩
        rw [h2]; simp [syncPart, hsc, hb, syncEmissions, hle]
      · simp only [hb, hle, if_false]
        obtain ⟨v', h1, h2, h3⟩ := key
          { v with
            saved := v.saved ++ [ConvertDown (currentBlockOf block)]
            calls := { v.calls with head := v.calls.head + 1 } } rfl rfl
        refine ⟨v', h1, ?_, h3⟩
        rw [h2]; simp [syncPart, hsc, hb, syncEmissions, hle]

theorem fromBlockNew_pass (env : Env) (block : BlockWithTxAndReceipt) (v : World) (c : Int)
    (hcnt : env.GetBlockTransactionCountByHash v.calls.txcount block.Hash
      (toString block.Number) = .ok c)
    (hpass : 0 < block.Transactions.length → c = block.Transactions.length)
    (hsafe : blockSafe env block = true) :
    ProcessBlock.fromBlockNew env block v =
      .ok () (v.counted.emit ([blockNew block] ++ blockTxEmissions env block ++ [blockEnd block])) := by
  unfold blockSafe at hsafe
  simp only [Bool.and_eq_true, decide_eq_true_eq, List.all_eq_true] at hsafe
  unfold ProcessBlock.fromBlockNew
  simp only [bind_run, Emit_run, GetBlockTransactionCountByHash, hcnt]
  by_cases hlen : 0 < block.Transactions.length
  · have hc := hpass hlen
    have htx := ProcessBlock_transactions_run env block block.Transactions 0
      ({ v with bus := v.bus ++ [(Topic.Block_New, Payload.block
          { BlockNumber := block.Number, BlockHash := block.Hash })] } : World).counted
      (by simpa using hsafe.1) (by simpa using hsafe.2)
    simp only [hlen, if_true, hc, ne_eq, not_true_eq_false, if_false, bind_run, pure_run]
    simp only [World.counted] at htx
    rw [htx]
    simp [World.emit, World.counted, blockNew, blockEnd, blockTxEmissions, Emit_run]
  · have hnil : block.Transactions = [] := by
      cases hl : block.Transactions with
      | nil => rfl
      | cons a t => simp [hl] at hlen
    simp [hlen, bind_run, pure_run, Emit_run, World.emit, World.counted, blockNew, blockEnd,
      blockTxEmissions, hnil]

theorem fromBlockNew_mismatch (env : Env) (block : BlockWithTxAndReceipt) (v : World) (c : Int)
    (hcnt : env.GetBlockTransactionCountByHash v.calls.txcount block.Hash
      (toString block.Number) = .ok c)
    (hlen : 0 < block.Transactions.length) (hne : c ≠ block.Transactions.length) :
    ProcessBlock.fromBlockNew env block v = .halt .fatal (v.counted.emit [blockNew block]) := by
  unfold ProcessBlock.fromBlockNew
  simp [bind_run, Emit_run, GetBlockTransactionCountByHash, hcnt, hlen, hne, Fatalf, haltWith,
    World.emit, World.counted, blockNew]

theorem ProcessBlock_pass (env : Env) (w : World) (it : BlockIterator)
    (b : BlockWithTxAndReceipt) (c : Int)
    (hit : w.l.iterator = some it)
    (hget : env.GetBlock w.calls.next it.currentNumber = .ok b)
    (hhead : headOk env w = true)
    (hstop : env.Detect w.calls.detect (currentBlockOf (b.atHeight it.currentNumber)) = none ∨
      stopFree w = true)
    (hcnt : env.GetBlockTransactionCountByHash w.calls.txcount b.Hash
      (toString it.currentNumber) = .ok c)
    (hpass : 0 < b.Transactions.length → c = b.Transactions.length)
    (hsafe : blockSafe env b = true) :
    ∃ w', ProcessBlock env w = .ok () w' ∧
      w'.bus = w.bus ++ syncPart env w it.currentNumber ++
        forkPart (env.Detect w.calls.detect (currentBlockOf (b.atHeight it.currentNumber))) ++
        [blockNew (b.atHeight it.currentNumber)] ++
        blockTxEmissions env (b.atHeight it.currentNumber) ++
        [blockEnd (b.atHeight it.currentNumber)] := by
  obtain ⟨v, hv, hbus, htc⟩ := untilFork_run env (b.atHeight it.currentNumber) (w.fetched it)
    (by simpa [headOk, World.fetched] using hhead)
    (by simpa [stopFree, World.fetched] using hstop)
  have hsplit := ProcessBlock_split env w it b hit hget
  rw [hsplit]
  simp only [bind_run]
  have hv' : ProcessBlock.untilFork env { b with Number := it.currentNumber } (w.fetched it) =
      .ok () v := hv
  rw [hv']
  have htail := fromBlockNew_pass env (b.atHeight it.currentNumber) v c
    (by rw [htc]; simpa [World.fetched, BlockWithTxAndReceipt.atHeight] using hcnt)
    (by simpa [BlockWithTxAndReceipt.atHeight] using hpass)
    (by simpa [blockSafe, BlockWithTxAndReceipt.atHeight] using hsafe)
  refine ⟨_, htail, ?_⟩
  simp only [World.emit, World.counted, hbus]
  simp [World.fetched, syncPart, BlockWithTxAndReceipt.atHeight, List.append_assoc]

theorem ProcessBlock_mismatch (env : Env) (w : World) (it : BlockIterator)
    (b : BlockWithTxAndReceipt) (c : Int)
    (hit : w.l.iterator = some it)
    (hget : env.GetBlock w.calls.next it.currentNumber = .ok b)
    (hhead : headOk env w = true)
    (hstop : env.Detect w.calls.detect (currentBlockOf (b.atHeight it.currentNumber)) = none ∨
      stopFree w = true)
    (hcnt : env.GetBlockTransactionCountByHash w.calls.txcount b.Hash
      (toString it.currentNumber) = .ok c)
    (hlen : 0 < b.Transactions.length) (hne : c ≠ b.Transactions.length) :
    ∃ w', ProcessBlock env w = .halt .fatal w' ∧
      w'.bus = w.bus ++ syncPart env w it.currentNumber ++
        forkPart (env.Detect w.calls.detect (currentBlockOf (b.atHeight it.currentNumber))) ++
        [blockNew (b.atHeight it.currentNumber)] := by
  obtain ⟨v, hv, hbus, htc⟩ := untilFork_run env (b.atHeight it.currentNumber) (w.fetched it)
    (by simpa [headOk, World.fetched] using hhead)
    (by simpa [stopFree, World.fetched] using hstop)
  have hsplit := ProcessBlock_split env w it b hit hget
  rw [hsplit]
  simp only [bind_run]
  have hv' : ProcessBlock.untilFork env { b with Number := it.currentNumber } (w.fetched it) =
      .ok () v := hv
  rw [hv']
  have htail := fromBlockNew_mismatch env (b.atHeight it.currentNumber) v c
    (by rw [htc]; simpa [World.fetched, BlockWithTxAndReceipt.atHeight] using hcnt)
    (by simpa [BlockWithTxAndReceipt.atHeight] using hlen)
    (by simpa [BlockWithTxAndReceipt.atHeight] using hne)
  refine ⟨_, htail, ?_⟩
  simp only [World.emit, World.counted, hbus]
  simp [World.fetched, syncPart, BlockWithTxAndReceipt.atHeight, List.append_assoc]

/-! ## Claims on `ProcessBlock` -/

/-- C1, as amended: on a block for which `Detect` returns a fork event,
`ProcessBlock` does not stop after the fork handling.  When the send of `Stop`
does not wait, the count check passes and every transaction has a receipt that
can be handled, it returns, and after the fork notification it has emitted the
block-start notification, the emissions of every transaction of the block and
the block-end notification, as for a block without fork. -/
theorem ProcessBlock_continues_after_fork (env : Env) (w : World) (it : BlockIterator)
    (b : BlockWithTxAndReceipt) (c : Int) (e : ForkEvent)
    (hit : w.l.iterator = some it)
    (hget : env.GetBlock w.calls.next it.currentNumber = .ok b)
    (hhead : headOk env w = true)
    (hfork : env.Detect w.calls.detect (currentBlockOf (b.atHeight it.currentNumber)) = some e)
    (hstop : stopFree w = true)
    (hcnt : env.GetBlockTransactionCountByHash w.calls.txcount b.Hash
      (toString it.currentNumber) = .ok c)
    (hpass : 0 < b.Transactions.length → c = b.Transactions.length)
    (hsafe : blockSafe env b = true) :
    ∃ w', ProcessBlock env w = .ok () w' ∧
      w'.bus = w.bus ++ syncPart env w it.currentNumber ++
        [(Topic.ChainForkDetected, Payload.fork e)] ++
        [blockNew (b.atHeight it.currentNumber)] ++
        blockTxEmissions env (b.atHeight it.currentNumber) ++
        [blockEnd (b.atHeight it.currentNumber)] := by
  obtain ⟨w', h1, h2⟩ := ProcessBlock_pass env w it b c hit hget hhead (Or.inr hstop) hcnt hpass hsafe
  exact ⟨w', h1, by rw [h2, hfork]; rfl⟩

/-- Witness of C1 as amended: a block at height 7 holding one plain transfer,
on which the detector reports a fork at height 5. -/
theorem ProcessBlock_continues_after_fork_witness :
    ∃ w', ProcessBlock (sampleEnv (sampleBlock [plainTx] [⟨1, 21000, []⟩]) 1 (some ⟨5, 7⟩))
        (sampleWorld true) = .ok () w' ∧
      w'.bus = (sampleWorld true).bus ++
        syncPart (sampleEnv (sampleBlock [plainTx] [⟨1, 21000, []⟩]) 1 (some ⟨5, 7⟩))
          (sampleWorld true) 7 ++
        [(Topic.ChainForkDetected, Payload.fork ⟨5, 7⟩)] ++
        [blockNew ((sampleBlock [plainTx] [⟨1, 21000, []⟩]).atHeight 7)] ++
        blockTxEmissions (sampleEnv (sampleBlock [plainTx] [⟨1, 21000, []⟩]) 1 (some ⟨5, 7⟩))
          ((sampleBlock [plainTx] [⟨1, 21000, []⟩]).atHeight 7) ++
        [blockEnd ((sampleBlock [plainTx] [⟨1, 21000, []⟩]).atHeight 7)] := by
  have h := ProcessBlock_continues_after_fork
    (sampleEnv (sampleBlock [plainTx] [⟨1, 21000, []⟩]) 1 (some ⟨5, 7⟩)) (sampleWorld true)
    (NewBlockIterator 7 defaultEndBlockNumber true 3) (sampleBlock [plainTx] [⟨1, 21000, []⟩]) 1
    ⟨5, 7⟩ rfl rfl (by decide) rfl (by decide) rfl (by decide) (by decide)
  exact h

/-- Counterexample to C1 as stated: on a block for which `Detect` returns a
fork event, `ProcessBlock` goes on after the fork notification and emits the
block-start notification, the transfer of the transaction of the block and the
block-end notification. -/
theorem ProcessBlock_fork_runs_on :
    (ProcessBlock (sampleEnv (sampleBlock [plainTx] [⟨1, 21000, []⟩]) 1 (some ⟨5, 7⟩))
        (sampleWorld true)).returned = true ∧
    (ProcessBlock (sampleEnv (sampleBlock [plainTx] [⟨1, 21000, []⟩]) 1 (some ⟨5, 7⟩))
        (sampleWorld true)).world.bus =
      [(Topic.ChainForkDetected, Payload.fork ⟨5, 7⟩),
       (Topic.Block_New, Payload.block ⟨7, "0xh7"⟩),
       (Topic.EthTransferEvent, Payload.transfer ⟨"0xb2", 5, 1500, 1⟩),
       (Topic.Block_End, Payload.block ⟨7, "0xh7"⟩)] := by
  decide!

/-- C3, as amended: for a fetched block with at least one transaction in its
fetched list, if that number differs from the transaction count reported by the
node for the hash of the block, `ProcessBlock` ends in the fatal error; what it
has emitted by then ends with the block-start notification, so that no
transaction of the block is processed and no block-end notification is emitted.
(The steps before the check are assumed to pass: the head query of `Sync`
answers and the send of `Stop` does not wait.) -/
theorem ProcessBlock_count_mismatch_fatal (env : Env) (w : World) (it : BlockIterator)
    (b : BlockWithTxAndReceipt) (c : Int)
    (hit : w.l.iterator = some it)
    (hget : env.GetBlock w.calls.next it.currentNumber = .ok b)
    (hhead : headOk env w = true)
    (hstop : stopFree w = true)
    (hcnt : env.GetBlockTransactionCountByHash w.calls.txcount b.Hash
      (toString it.currentNumber) = .ok c)
    (hlen : 0 < b.Transactions.length) (hne : c ≠ b.Transactions.length) :
    ∃ w', ProcessBlock env w = .halt .fatal w' ∧
      w'.bus = w.bus ++ syncPart env w it.currentNumber ++
        forkPart (env.Detect w.calls.detect (currentBlockOf (b.atHeight it.currentNumber))) ++
        [blockNew (b.atHeight it.currentNumber)] :=
  ProcessBlock_mismatch env w it b c hit hget hhead (Or.inr hstop) hcnt hlen hne

/-- Witness of C3 as amended: one fetched transaction, where the node reports
two. -/
theorem ProcessBlock_count_mismatch_fatal_witness :
    ∃ w', ProcessBlock (sampleEnv (sampleBlock [plainTx] [⟨1, 21000, []⟩]) 2 none)
        (sampleWorld true) = .halt .fatal w' ∧
      w'.bus = (sampleWorld true).bus ++
        syncPart (sampleEnv (sampleBlock [plainTx] [⟨1, 21000, []⟩]) 2 none) (sampleWorld true) 7 ++
        forkPart ((sampleEnv (sampleBlock [plainTx] [⟨1, 21000, []⟩]) 2 none).Detect 0
          (currentBlockOf ((sampleBlock [plainTx] [⟨1, 21000, []⟩]).atHeight 7))) ++
        [blockNew ((sampleBlock [plainTx] [⟨1, 21000, []⟩]).atHeight 7)] := by
  have h := ProcessBlock_count_mismatch_fatal
    (sampleEnv (sampleBlock [plainTx] [⟨1, 21000, []⟩]) 2 none) (sampleWorld true)
    (NewBlockIterator 7 defaultEndBlockNumber true 3) (sampleBlock [plainTx] [⟨1, 21000, []⟩]) 2
    rfl rfl (by decide) (by decide) rfl (by decide) (by decide)
  exact h

/-- Counterexample to C3 as stated: the fetched list holds no transaction while
the node reports five for the hash of the block; `ProcessBlock` returns and
emits the block-end notification. -/
theorem ProcessBlock_empty_list_unchecked :
    (sampleBlock [] []).Transactions.length = 0 ∧
    (sampleEnv (sampleBlock [] []) 5 none).GetBlockTransactionCountByHash 0 "0xh7" "7" = .ok 5 ∧
    (ProcessBlock (sampleEnv (sampleBlock [] []) 5 none) (sampleWorld true)).returned = true ∧
    (ProcessBlock (sampleEnv (sampleBlock [] []) 5 none) (sampleWorld true)).world.bus =
      [(Topic.Block_New, Payload.block ⟨7, "0xh7"⟩),
       (Topic.Block_End, Payload.block ⟨7, "0xh7"⟩)] := by
  refine ⟨rfl, rfl, ?_, ?_⟩ <;> decide!

/-- C5, as amended: for a block on which no fork is declared, whose count check
passes, which has a receipt for each of its transactions and in whose receipts
the recognised logs on the event path carry well-formed hex text,
`ProcessBlock` returns and, after the sync-complete notification that the sync
step may add, its emissions are in this order: the block-start notification,
the emissions of transaction 0 paired with receipt 0, those of transaction 1
paired with receipt 1 and so on in block order, and the block-end notification
last; block-start and block-end carry the number and hash of the block. -/
theorem ProcessBlock_emission_order (env : Env) (w : World) (it : BlockIterator)
    (b : BlockWithTxAndReceipt) (c : Int)
    (hit : w.l.iterator = some it)
    (hget : env.GetBlock w.calls.next it.currentNumber = .ok b)
    (hhead : headOk env w = true)
    (hfork : env.Detect w.calls.detect (currentBlockOf (b.atHeight it.currentNumber)) = none)
    (hcnt : env.GetBlockTransactionCountByHash w.calls.txcount b.Hash
      (toString it.currentNumber) = .ok c)
    (hpass : 0 < b.Transactions.length → c = b.Transactions.length)
    (hsafe : blockSafe env b = true) :
    ∃ w', ProcessBlock env w = .ok () w' ∧
      w'.bus = w.bus ++ syncPart env w it.currentNumber ++
        [(Topic.Block_New, Payload.block { BlockNumber := it.currentNumber, BlockHash := b.Hash })] ++
        ((b.Transactions.zip b.Receipts).map (txEmissions env b.Timestamp)).flatten ++
        [(Topic.Block_End, Payload.block { BlockNumber := it.currentNumber, BlockHash := b.Hash })] := by
  obtain ⟨w', h1, h2⟩ := ProcessBlock_pass env w it b c hit hget hhead (Or.inl hfork) hcnt hpass hsafe
  refine ⟨w', h1, ?_⟩
  rw [h2, hfork]
  simp [forkPart, blockNew, blockEnd, blockTxEmissions, BlockWithTxAndReceipt.atHeight]

/-- Witness of C5 as amended: a block at height 7 with a call to the known
contract, whose receipt holds a foreign log and a sound log, followed by a
plain transfer. -/
theorem ProcessBlock_emission_order_witness :
    ∃ w', ProcessBlock
        (sampleEnv (sampleBlock [callTx, plainTx]
          [⟨1, 21000, [foreignLog, goodLog]⟩, ⟨1, 21000, []⟩]) 2 none) (sampleWorld true) =
          .ok () w' ∧
      w'.bus = (sampleWorld true).bus ++
        syncPart (sampleEnv (sampleBlock [callTx, plainTx]
          [⟨1, 21000, [foreignLog, goodLog]⟩, ⟨1, 21000, []⟩]) 2 none) (sampleWorld true) 7 ++
        [(Topic.Block_New, Payload.block { BlockNumber := 7, BlockHash := "0xh7" })] ++
        (([callTx, plainTx].zip [⟨1, 21000, [foreignLog, goodLog]⟩, ⟨1, 21000, []⟩]).map
          (txEmissions (sampleEnv (sampleBlock [callTx, plainTx]
            [⟨1, 21000, [foreignLog, goodLog]⟩, ⟨1, 21000, []⟩]) 2 none) 1500)).flatten ++
        [(Topic.Block_End, Payload.block { BlockNumber := 7, BlockHash := "0xh7" })] := by
  have h := ProcessBlock_emission_order
    (sampleEnv (sampleBlock [callTx, plainTx]
      [⟨1, 21000, [foreignLog, goodLog]⟩, ⟨1, 21000, []⟩]) 2 none) (sampleWorld true)
    (NewBlockIterator 7 defaultEndBlockNumber true 3)
    (sampleBlock [callTx, plainTx] [⟨1, 21000, [foreignLog, goodLog]⟩, ⟨1, 21000, []⟩]) 2
    rfl rfl (by decide) rfl rfl (by decide) (by decide)
  exact h

/-- Counterexample to C5 as stated: three blocks on which no fork is declared
and whose count check passes.  The first has a transaction without a receipt,
so that `block.Receipts[idx]` panics; in the second a recognised log carries
the empty string as data, so that `MustDecode` panics: in both the bus holds
the block-start notification only, and no block-end notification follows.  On
the third, sync completes: the first emission of `ProcessBlock` is the
sync-complete notification, not the block-start notification. -/
theorem ProcessBlock_panics_before_block_end :
    ((ProcessBlock (sampleEnv (sampleBlock [plainTx] []) 1 none) (sampleWorld true)).halted =
        some .panic ∧
      (ProcessBlock (sampleEnv (sampleBlock [plainTx] []) 1 none) (sampleWorld true)).world.bus =
        [(Topic.Block_New, Payload.block ⟨7, "0xh7"⟩)]) ∧
    ((ProcessBlock (sampleEnv (sampleBlock [callTx] [⟨1, 21000, [brokenLog]⟩]) 1 none)
        (sampleWorld true)).halted = some .panic ∧
      (ProcessBlock (sampleEnv (sampleBlock [callTx] [⟨1, 21000, [brokenLog]⟩]) 1 none)
        (sampleWorld true)).world.bus = [(Topic.Block_New, Payload.block ⟨7, "0xh7"⟩)]) ∧
    (ProcessBlock { sampleEnv (sampleBlock [] []) 0 none with BlockNumber := fun _ => .ok 9 }
        (sampleWorld false)).world.bus =
      [(Topic.SyncChainComplete, Payload.head 9),
       (Topic.Block_New, Payload.block ⟨7, "0xh7"⟩),
       (Topic.Block_End, Payload.block ⟨7, "0xh7"⟩)] := by
  decide!

/-! ## What the steps after the fork handling can change -/

theorem World.tail_tail (w : World) (k k' : Nat) (d d' : List Emission) :
    (w.tail k d).tail k' d' = w.tail (k + k') (d ++ d') := by
  simp [World.tail, Nat.add_assoc, List.append_assoc]

theorem World.emit_eq_tail (w : World) (d : List Emission) : w.emit d = w.tail 0 d := by
  simp [World.emit, World.tail]

theorem EmitsOnly.pure {α : Type} (P : Topic → Bool) (a : α) : EmitsOnly P (pure a : M α) := by
  intro w
  exact ⟨0, [], by simp [pure_run, Res.world, World.tail], by simp⟩

theorem EmitsOnly.halt {α : Type} (P : Topic → Bool) (h : Halt) :
    EmitsOnly P (haltWith h : M α) := by
  intro w
  exact ⟨0, [], by simp [haltWith, Res.world, World.tail], by simp⟩

theorem EmitsOnly.emit (P : Topic → Bool) (t : Topic) (p : Payload) (ht : P t = true) :
    EmitsOnly P (Emit t p) := by
  intro w
  exact ⟨0, [(t, p)], by simp [Emit_run, Res.world, World.tail], by simpa using ht⟩

theorem EmitsOnly.bind {α β : Type} (P : Topic → Bool) (x : M α) (f : α → M β)
    (hx : EmitsOnly P x) (hf : ∀ a, EmitsOnly P (f a)) : EmitsOnly P (x >>= f) := by
  intro w
  obtain ⟨k, d, hw, hd⟩ := hx w
  rw [bind_run]
  cases hr : x w with
  | halt h w1 =>
    refine ⟨k, d, ?_, hd⟩
    rw [hr] at hw
    simpa [Res.world] using hw
  | ok a w1 =>
    rw [hr] at hw
    simp only [Res.world] at hw
    obtain ⟨k', d', hw', hd'⟩ := hf a w1
    refine ⟨k + k', d ++ d', ?_, ?_⟩
    · simp only [hw']
      rw [hw, World.tail_tail]
    · intro e he
      rcases List.mem_append.mp he with h | h
      · exact hd e h
      · exact hd' e h

theorem EmitsOnly.mono {α : Type} (P Q : Topic → Bool) (x : M α)
    (hPQ : ∀ t, P t = true → Q t = true) (hx : EmitsOnly P x) : EmitsOnly Q x := by
  intro w
  obtain ⟨k, d, hw, hd⟩ := hx w
  exact ⟨k, d, hw, fun e he => hPQ _ (hd e he)⟩

theorem eventFor_topic (env : Env) (tx : Transaction) (receipt : TransactionReceipt)
    (blockTime : Int) (evtLog : Log) (e : Emission)
    (h : eventFor env tx receipt blockTime evtLog = some e) : e.1.ofTransaction = true := by
  unfold eventFor at h
  split at h
  · split at h
    · split at h
      · cases h; rfl
      · cases h
    · cases h; rfl
  · cases h

theorem ProcessEvent_onLog_emitsOnly (env : Env) (tx : Transaction)
    (receipt : TransactionReceipt) (blockTime : Int) (evtLog : Log) :
    EmitsOnly Topic.ofTransaction (ProcessEvent.onLog env tx receipt blockTime evtLog) := by
  intro w
  rw [ProcessEvent_onLog_run]
  split
  · exact ⟨0, [], by simp [Res.world, World.tail], by simp⟩
  · refine ⟨0, (eventFor env tx receipt blockTime evtLog).toList,
      by simp [Res.world, World.emit_eq_tail], ?_⟩
    intro e he
    exact eventFor_topic env tx receipt blockTime evtLog e (by simpa using he)

theorem ProcessEvent_logs_emitsOnly (env : Env) (tx : Transaction)
    (receipt : TransactionReceipt) (blockTime : Int) (logs : List Log) :
    EmitsOnly Topic.ofTransaction (ProcessEvent.logs env tx receipt blockTime logs) := by
  induction logs with
  | nil => exact EmitsOnly.pure _ _
  | cons evtLog rest ih =>
    exact EmitsOnly.bind _ _ _ (ProcessEvent_onLog_emitsOnly env tx receipt blockTime evtLog)
      (fun _ => ih)

theorem ProcessMinedTransaction_emitsOnly (env : Env) (tx : Transaction)
    (receipt : TransactionReceipt) (blockTime : Int) :
    EmitsOnly Topic.ofTransaction (ProcessMinedTransaction env tx receipt blockTime) := by
  unfold ProcessMinedTransaction
  split
  · exact EmitsOnly.bind _ _ _ (ProcessEvent_logs_emitsOnly env tx receipt blockTime _)
      (fun _ => EmitsOnly.pure _ _)
  · split
    · intro w
      refine ⟨0, methodEmissions env tx (some receipt) blockTime,
        by simp [ProcessMethod_run, Res.world, World.emit_eq_tail], ?_⟩
      intro e he
      unfold methodEmissions at he
      split at he
      · simp at he
      · simp at he; subst he; rfl
    · intro w
      refine ⟨0, transferEmissions env tx (some receipt) blockTime,
        by simp [handleEthTransfer_run, Res.world, World.emit_eq_tail], ?_⟩
      intro e he
      unfold transferEmissions at he
      obtain ⟨t, _, rfl⟩ := List.mem_map.mp he
      rfl

theorem ProcessBlock_transactions_emitsOnly (env : Env) (block : BlockWithTxAndReceipt)
    (txs : List Transaction) (idx : Nat) :
    EmitsOnly Topic.ofTransaction (ProcessBlock.transactions env block idx txs) := by
  induction txs generalizing idx with
  | nil => exact EmitsOnly.pure _ _
  | cons tx rest ih =>
    unfold ProcessBlock.transactions
    split
    · exact EmitsOnly.halt _ _
    · exact EmitsOnly.bind _ _ _ (ProcessMinedTransaction_emitsOnly env tx _ _) (fun _ => ih _)

theorem GetBlockTransactionCountByHash_emitsOnly (P : Topic → Bool) (env : Env)
    (hash number : String) : EmitsOnly P (GetBlockTransactionCountByHash env hash number) := by
  intro w
  exact ⟨1, [], by simp [GetBlockTransactionCountByHash, Res.world, World.tail], by simp⟩

theorem fromBlockNew_emitsOnly (env : Env) (block : BlockWithTxAndReceipt) :
    EmitsOnly Topic.ofBlock (ProcessBlock.fromBlockNew env block) := by
  have htx : ∀ t, Topic.ofTransaction t = true → Topic.ofBlock t = true := by
    intro t ht
    cases t <;> simp_all [Topic.ofBlock, Topic.ofTransaction]
  have htxs : EmitsOnly Topic.ofBlock
      (ProcessBlock.transactions env block 0 block.Transactions >>= fun _ =>
        Emit .Block_End (.block { BlockNumber := block.Number, BlockHash := block.Hash })) :=
    EmitsOnly.bind _ _ _
      (EmitsOnly.mono _ _ _ htx (ProcessBlock_transactions_emitsOnly env block _ _))
      fun _ => EmitsOnly.emit Topic.ofBlock _ _ rfl
  unfold ProcessBlock.fromBlockNew
  refine EmitsOnly.bind _ _ _ (EmitsOnly.emit Topic.ofBlock _ _ rfl) fun _ => ?_
  refine EmitsOnly.bind _ _ _ (GetBlockTransactionCountByHash_emitsOnly _ env _ _) fun r => ?_
  cases r with
  | error e => exact EmitsOnly.halt _ _
  | ok txcnt =>
    simp only
    split
    · split
      · exact EmitsOnly.bind _ _ _ (EmitsOnly.halt _ _) fun _ => htxs
      · exact EmitsOnly.bind _ _ _ (EmitsOnly.pure _ _) fun _ => htxs
    · exact EmitsOnly.bind _ _ _ (EmitsOnly.pure _ _) fun _ =>
        EmitsOnly.emit Topic.ofBlock _ _ rfl

theorem World.tail_zero (w : World) : w.tail 0 [] = w := by
  simp [World.tail]

theorem ProcessBlock_nofork (env : Env) (w : World)
    (hdet : ∀ blk, env.Detect w.calls.detect blk = none) :
    ∃ w1 k d, (ProcessBlock env w).world = w1.tail k d ∧ (∀ e ∈ d, e.1.ofBlock = true) ∧
      NoForkHead w w1 := by
  cases hit : w.l.iterator with
  | none =>
    refine ⟨w, 0, [], ?_, by simp, ⟨rfl, rfl, rfl, Nat.le_refl _, Or.inl ⟨rfl, rfl⟩,
      Or.inl ⟨rfl, rfl⟩⟩⟩
    simp [ProcessBlock, bind_run, Next, hit, Res.world, World.tail_zero]
  | some it =>
    cases hget : env.GetBlock w.calls.next it.currentNumber with
    | error err =>
      refine ⟨{ w with calls := { w.calls with next := w.calls.next + 1 } }, 0, [], ?_, by simp,
        ⟨rfl, rfl, rfl, Nat.le_refl _, Or.inl ⟨rfl, rfl⟩, Or.inl ⟨rfl, rfl⟩⟩⟩
      simp [ProcessBlock, bind_run, Next, hit, hget, Fatalf, haltWith, Res.world, World.tail_zero]
    | ok b =>
      rw [ProcessBlock_split env w it b hit hget]
      have hfork : ∀ u : World, u.calls.detect = w.calls.detect →
          ForkProcess env ⟨it.currentNumber, b.ParentHash, b.Hash, b.Timestamp⟩ u =
            .ok () u.detected :=
        fun u hu => ForkProcess_none env _ u (by rw [hu]; exact hdet _)
      have htail : ∀ u : World, NoForkHead w u →
          ∃ w1 k d, (ProcessBlock.fromBlockNew env { b with Number := it.currentNumber } u).world =
            w1.tail k d ∧ (∀ e ∈ d, e.1.ofBlock = true) ∧ NoForkHead w w1 := by
        intro u hu
        obtain ⟨k, d, h1, h2⟩ := fromBlockNew_emitsOnly env { b with Number := it.currentNumber } u
        exact ⟨u, k, d, h1, h2, hu⟩
      have hsaved : ∀ u : World, u.l.iterator = (w.fetched it).l.iterator →
          u.saved = w.saved ++ [ConvertDown ⟨it.currentNumber, b.ParentHash, b.Hash, b.Timestamp⟩] →
          (u.l.iterator = w.l.iterator ∧ u.saved = w.saved) ∨
          (∃ it' x, w.l.iterator = some it' ∧
            u.l.iterator = some { it' with currentNumber := it'.currentNumber + 1 } ∧
            x.BlockNumber = it'.currentNumber ∧ u.saved = w.saved ++ [x]) :=
        fun u h1 h2 => Or.inr ⟨it, _, hit, by rw [h1]; rfl, rfl, h2⟩
      unfold ProcessBlock.untilFork
      simp only [bind_run, SaveBlock_run, getWorld_run]
      cases hsc : w.l.syncComplete with
      | true =>
        have hsc' : (w.fetched it).l.syncComplete = true := by simpa [World.fetched] using hsc
        simp only [hsc', Bool.true_eq_false, pure_run, beq_iff_eq, if_false, bind_run]
        rw [hfork { w.fetched it with saved := (w.fetched it).saved ++
          [ConvertDown ⟨it.currentNumber, b.ParentHash, b.Hash, b.Timestamp⟩] } rfl]
        simp only
        apply htail
        exact ⟨rfl, rfl, rfl, Nat.le_succ _, Or.inl ⟨rfl, by simp [World.detected, World.fetched]⟩,
          hsaved _ rfl rfl⟩
      | false =>
        have hsc' : (w.fetched it).l.syncComplete = false := by simpa [World.fetched] using hsc
        simp only [hsc', beq_self_eq_true, if_true, bind_run, Sync_run]
        have hhead : (w.fetched it).calls.head = w.calls.head := rfl
        simp only [hhead]
        cases hb : env.BlockNumber w.calls.head with
        | error err =>
          simp only
          refine ⟨_, 0, [], (World.tail_zero _).symm, by simp, ?_⟩
          exact ⟨rfl, rfl, rfl, Nat.le_refl _, Or.inl ⟨rfl, rfl⟩, hsaved _ rfl rfl⟩
        | ok h =>
          simp only
          by_cases hle : h ≤ it.currentNumber + int64 (w.fetched it).l.options.ConfirmBlockNumber
          · simp only [hle, if_true]
            simp only [ForkProcess, bind_run, Detect, World.fetched, hdet, pure_run]
            apply htail
            exact ⟨rfl, rfl, rfl, Nat.le_succ _, Or.inr ⟨hsc, rfl, h, rfl⟩, hsaved _ rfl rfl⟩
          · simp only [hle, if_false]
            simp only [ForkProcess, bind_run, Detect, World.fetched, hdet, pure_run]
            apply htail
            exact ⟨rfl, rfl, rfl, Nat.le_succ _, Or.inl ⟨rfl, by simp [World.detected, World.fetched]⟩,
              hsaved _ rfl rfl⟩

/-! ## Claims on the sync-complete notification -/

theorem syncCount_append (a b : List Emission) :
    syncCount (a ++ b) = syncCount a + syncCount b := by
  simp [syncCount, List.countP_append]

theorem syncCount_ofBlock (d : List Emission) (h : ∀ e ∈ d, e.1.ofBlock = true) :
    syncCount d = 0 := by
  unfold syncCount
  rw [List.countP_eq_zero]
  intro e he
  have := h e he
  cases ht : e.1 <;> simp_all [Topic.ofBlock, Topic.ofTransaction]

theorem ProcessBlock_syncDebt (env : Env) (w : World)
    (hdet : ∀ blk, env.Detect w.calls.detect blk = none) :
    syncDebt (ProcessBlock env w).world ≤ syncDebt w ∧
    w.calls.detect ≤ (ProcessBlock env w).world.calls.detect := by
  obtain ⟨w1, k, d, hw, hd, hh⟩ := ProcessBlock_nofork env w hdet
  rw [hw]
  have h1 : syncDebt (w1.tail k d) = syncDebt w1 := by
    simp [syncDebt, World.tail, syncCount_append, syncCount_ofBlock d hd]
  rw [h1]
  refine ⟨?_, hh.detect⟩
  rcases hh.sync with ⟨hb, hs⟩ | ⟨hs, hs1, h, hb⟩
  · simp [syncDebt, hb, hs]
  · simp [syncDebt, hb, hs, hs1, syncCount_append, syncCount]

theorem loop_syncDebt (env : Env) (fuel : Nat) :
    ∀ w : World, (∀ k blk, w.calls.detect ≤ k → env.Detect k blk = none) →
      syncDebt (loop env fuel w).world ≤ syncDebt w := by
  induction fuel with
  | zero => intro w _; simp [loop, pure_run, Res.world]
  | succ n ih =>
    intro w hnofork
    unfold loop
    cases hs : w.l.stop with
    | cons a rest => simp [Res.world, syncDebt]
    | nil =>
      simp only [bind_run]
      have hstep := ProcessBlock_syncDebt env w (fun blk => hnofork _ blk (Nat.le_refl _))
      cases hr : ProcessBlock env w with
      | halt h w1 =>
        rw [hr] at hstep
        simpa [Res.world] using hstep.1
      | ok a w1 =>
        rw [hr] at hstep
        simp only [Res.world] at hstep
        have hnf1 : ∀ k blk, w1.calls.detect ≤ k → env.Detect k blk = none :=
          fun k blk hk => hnofork k blk (Nat.le_trans hstep.2 hk)
        exact Nat.le_trans (ih w1 hnf1) hstep.1

/-- C8, as amended: over every run of a loop launched by `Start`, the first one
or one launched by a restart, during which no fork is declared (the detector
answers none from the call at which the run starts on), the sync-complete
notification is emitted at most once, and not at all once sync is marked
complete: whatever the number of rounds and however the run ends, the bus holds
at most one more sync-complete notification than at the start of the run, and
none more if the flag was set. -/
theorem sync_complete_once_without_restart (env : Env) (fuel : Nat) (w : World)
    (hnofork : ∀ k blk, w.calls.detect ≤ k → env.Detect k blk = none) :
    syncCount (loop env fuel w).world.bus ≤
      syncCount w.bus + (if w.l.syncComplete then 0 else 1) := by
  have h := loop_syncDebt env fuel w hnofork
  unfold syncDebt at h
  omega

/-- Witness of C8 as amended: the run launched by the restart after a fork.
The world is the one left by the first loop, which completed sync on block 7,
declared the fork and took the stop signal; from there three rounds process
blocks 6, 7 and 8 without fork, and the notification is emitted exactly once
more, on block 6. -/
theorem sync_complete_once_without_restart_witness :
    syncCount (loop forkOnceEnv 3 restartedWorld).world.bus ≤
      syncCount restartedWorld.bus + (if restartedWorld.l.syncComplete then 0 else 1) ∧
    syncCount restartedWorld.bus = 1 ∧
    restartedWorld.l.syncComplete = false ∧
    syncCount (loop forkOnceEnv 3 restartedWorld).world.bus = 2 ∧
    (loop forkOnceEnv 3 restartedWorld).world.saved.map (fun b => b.BlockNumber) =
      [7, 6, 7, 8] :=
  ⟨sync_complete_once_without_restart forkOnceEnv 3 restartedWorld (by
      have hd : restartedWorld.calls.detect = 1 := by decide!
      intro k blk hk
      rw [hd] at hk
      have hk0 : k ≠ 0 := by omega
      simp [forkOnceEnv, hk0]),
    by decide!, by decide!, by decide!, by decide!⟩

/-- Counterexample to C8 as stated: a run with one fork.  The loop of the first
`Start` processes block 7, on which sync completes and a fork at height 5 is
declared, then takes the stop signal and ends; the loop launched by the restart
processes block 6, and since `Start` has cleared the flag the sync-complete
notification is emitted a second time. -/
theorem sync_complete_twice_after_fork :
    ((loop forkOnceEnv 2 >>= fun _ => loop forkOnceEnv 1) (sampleWorld false)).returned = true ∧
    ((loop forkOnceEnv 2 >>= fun _ => loop forkOnceEnv 1) (sampleWorld false)).world.bus =
      [(Topic.SyncChainComplete, Payload.head 9),
       (Topic.ChainForkDetected, Payload.fork ⟨5, 7⟩),
       (Topic.Block_New, Payload.block ⟨7, "0xh7"⟩),
       (Topic.Block_End, Payload.block ⟨7, "0xh7"⟩),
       (Topic.SyncChainComplete, Payload.head 9),
       (Topic.Block_New, Payload.block ⟨6, "0xh7"⟩),
       (Topic.Block_End, Payload.block ⟨6, "0xh7"⟩)] := by
  decide!

theorem int64_of_lt (x : Nat) (h : x < 2 ^ 63) : int64 x = (x : Int) := by
  have h1 : x % 2 ^ 64 = x := Nat.mod_eq_of_lt (by omega)
  unfold int64
  rw [h1, if_pos h]

theorem ForkProcess_head_calls (env : Env) (currentBlock : Block) (u : World) :
    (ForkProcess env currentBlock u).world.calls.head = u.calls.head := by
  cases hd : env.Detect u.calls.detect currentBlock with
  | none => simp [ForkProcess_none env currentBlock u hd, Res.world, World.detected]
  | some e =>
    cases hs : stopFree u with
    | true =>
      rw [ForkProcess_fork env currentBlock u e hd hs]
      unfold World.restarted
      split <;> simp [Res.world, World.detected]
    | false =>
      unfold stopFree at hs
      have ho : u.l.options.Open = true := by
        cases ho : u.l.options.Open <;> simp [ho] at hs ⊢
      have hlen : ¬ u.l.stop.length < 1 := by simpa [ho] using hs
      simp [ForkProcess, bind_run, Detect, hd, Stop, getWorld_run, Un, sendStop, modifyWorld_run,
        ho, hlen, Res.world]

theorem ProcessBlock_head_calls (env : Env) (v : World) (hsc : v.l.syncComplete = true) :
    (ProcessBlock env v).world.calls.head = v.calls.head := by
  cases hit : v.l.iterator with
  | none => simp [ProcessBlock, bind_run, Next, hit, Res.world]
  | some it =>
    cases hget : env.GetBlock v.calls.next it.currentNumber with
    | error err => simp [ProcessBlock, bind_run, Next, hit, hget, Fatalf, haltWith, Res.world]
    | ok b =>
      rw [ProcessBlock_split env v it b hit hget]
      unfold ProcessBlock.untilFork
      have hsc' : (v.fetched it).l.syncComplete = true := by simpa [World.fetched] using hsc
      simp only [bind_run, SaveBlock_run, getWorld_run, hsc', Bool.true_eq_false, pure_run,
        beq_iff_eq, if_false]
      have hf := ForkProcess_head_calls env ⟨it.currentNumber, b.ParentHash, b.Hash, b.Timestamp⟩
        { v.fetched it with saved := (v.fetched it).saved ++
          [ConvertDown ⟨it.currentNumber, b.ParentHash, b.Hash, b.Timestamp⟩] }
      cases hr : ForkProcess env ⟨it.currentNumber, b.ParentHash, b.Hash, b.Timestamp⟩
        { v.fetched it with saved := (v.fetched it).saved ++
          [ConvertDown ⟨it.currentNumber, b.ParentHash, b.Hash, b.Timestamp⟩] } with
      | halt h w1 =>
        rw [hr] at hf
        simpa [Res.world, World.fetched] using hf
      | ok a w1 =>
        rw [hr] at hf
        simp only [Res.world] at hf
        obtain ⟨k, d, hw, _⟩ := fromBlockNew_emitsOnly env { b with Number := it.currentNumber } w1
        simp only
        rw [hw]
        simpa [World.tail, World.fetched] using hf

/-- C9, as amended: for a confirmation depth below 2^63, when sync is not yet
marked complete and the node reports the head `h`, `Sync n` marks sync complete
and emits the sync-complete notification exactly when `h` is at most `n` plus
the confirmation depth; when `h` is beyond, it emits nothing and leaves the flag
unset; and once the flag is set `ProcessBlock` does not call `Sync`: it makes
no head query, whatever the depth. -/
theorem Sync_marks_complete_when_caught_up (env : Env) (n h : Int) (w : World)
    (hconf : w.l.options.ConfirmBlockNumber < 2 ^ 63)
    (hsc : w.l.syncComplete = false) (hhead : env.BlockNumber w.calls.head = .ok h) :
    (h ≤ n + (w.l.options.ConfirmBlockNumber : Int) →
      ∃ w', Sync env n w = .ok () w' ∧ w'.l.syncComplete = true ∧
        w'.bus = w.bus ++ [(Topic.SyncChainComplete, Payload.head h)]) ∧
    (n + (w.l.options.ConfirmBlockNumber : Int) < h →
      ∃ w', Sync env n w = .ok () w' ∧ w'.l.syncComplete = false ∧ w'.bus = w.bus) ∧
    (∀ v : World, v.l.syncComplete = true →
      (ProcessBlock env v).world.calls.head = v.calls.head) := by
  have hc := int64_of_lt _ hconf
  refine ⟨?_, ?_, fun v hv => ProcessBlock_head_calls env v hv⟩
  · intro hle
    rw [Sync_run, hhead]
    have hle' : h ≤ n + int64 w.l.options.ConfirmBlockNumber := by rw [hc]; exact hle
    simp only [hle', if_true]
    exact ⟨_, rfl, rfl, rfl⟩
  · intro hlt
    rw [Sync_run, hhead]
    have hle : ¬ h ≤ n + int64 w.l.options.ConfirmBlockNumber := by rw [hc]; omega
    simp only [hle, if_false]
    exact ⟨_, rfl, hsc, rfl⟩

/-- Witness of C9 as amended: the sample world before sync is complete, with
confirmation depth 3 and the node head at 20: block 17 completes sync, block 16
does not. -/
theorem Sync_marks_complete_when_caught_up_witness :
    (∃ w', Sync (sampleEnv (sampleBlock [] []) 0 none) 17 (sampleWorld false) = .ok () w' ∧
        w'.l.syncComplete = true ∧
        w'.bus = (sampleWorld false).bus ++ [(Topic.SyncChainComplete, Payload.head 20)]) ∧
    (∃ w', Sync (sampleEnv (sampleBlock [] []) 0 none) 16 (sampleWorld false) = .ok () w' ∧
        w'.l.syncComplete = false ∧ w'.bus = (sampleWorld false).bus) :=
  ⟨(Sync_marks_complete_when_caught_up (sampleEnv (sampleBlock [] []) 0 none) 17 20
      (sampleWorld false) (by decide) rfl rfl).1 (by decide),
   (Sync_marks_complete_when_caught_up (sampleEnv (sampleBlock [] []) 0 none) 16 20
      (sampleWorld false) (by decide) rfl rfl).2.1 (by decide)⟩

/-- Counterexample to C9 as stated: with the confirmation depth 2^64 - 1, the
block number 20 and the node head 20, the head is at most the block number plus
the depth, yet `int64` turns the depth into -1 and `Sync` emits nothing and
leaves the flag unset. -/
theorem Sync_wraps_large_depth :
    (20 : Int) ≤ 20 + ((2 ^ 64 - 1 : Nat) : Int) ∧
    int64 (2 ^ 64 - 1) = -1 ∧
    (Sync (sampleEnv (sampleBlock [] []) 0 none) 20 (deepWorld (2 ^ 64 - 1))).returned = true ∧
    (Sync (sampleEnv (sampleBlock [] []) 0 none) 20 (deepWorld (2 ^ 64 - 1))).world.bus = [] ∧
    (Sync (sampleEnv (sampleBlock [] []) 0 none) 20
      (deepWorld (2 ^ 64 - 1))).world.l.syncComplete = false := by
  refine ⟨by decide, ?_, ?_, ?_, ?_⟩ <;> decide!

/-! ## Claim on pending transactions -/

/-- C10: `ProcessPendingTransaction` reads the wall clock once, then runs the
method path when `SupportedMethod` holds and the fallback transfer handler
otherwise, in both cases with no receipt and with the clock reading as time; it
returns, and none of its emissions is a decoded event.  The watcher of the
pending feed hands every transaction to it. -/
theorem ProcessPendingTransaction_paths (env : Env) (tx : Transaction) (w : World) :
    ProcessPendingTransaction env tx w =
      (if env.processor.SupportedMethod tx then ProcessMethod env tx none (env.Now w.calls.now)
        else handleEthTransfer env tx none (env.Now w.calls.now)) w.clocked ∧
    ProcessPendingTransaction env tx w =
      .ok (pendingError env tx (env.Now w.calls.now))
        (w.clocked.emit (pendingEmissions env tx (env.Now w.calls.now))) ∧
    (∀ e ∈ pendingEmissions env tx (env.Now w.calls.now), ∀ ev, e.2 ≠ Payload.event ev) ∧
    WatchingPendingTransaction env (.tx tx) w = ProcessPendingTransaction env tx w := by
  have h1 : ProcessPendingTransaction env tx w =
      (if env.processor.SupportedMethod tx then ProcessMethod env tx none (env.Now w.calls.now)
        else handleEthTransfer env tx none (env.Now w.calls.now)) w.clocked := by
    simp [ProcessPendingTransaction, bind_run, timeNowUnix, World.clocked]
  refine ⟨h1, ?_, ?_, rfl⟩
  · rw [h1]
    unfold pendingError pendingEmissions
    split
    · exact ProcessMethod_run env tx none _ _
    · exact handleEthTransfer_run env tx none _ _
  · intro e he ev
    unfold pendingEmissions at he
    split at he
    · unfold methodEmissions at he
      split at he
      · simp at he
      · simp at he; subst he; simp
    · unfold transferEmissions at he
      obtain ⟨t, _, rfl⟩ := List.mem_map.mp he
      simp

/-! ## Claim on the rewind after a fork -/

theorem Next_run (env : Env) (v : World) (it : BlockIterator) (hit : v.l.iterator = some it) :
    Next env v =
      match env.GetBlock v.calls.next it.currentNumber with
      | .ok b => .ok (.ok (b.atHeight it.currentNumber)) (v.fetched it)
      | .error err => .ok (.error err) { v with calls := { v.calls with next := v.calls.next + 1 } } := by
  unfold Next
  rw [hit]
  cases hg : env.GetBlock v.calls.next it.currentNumber <;>
    simp [hg, World.fetched, BlockWithTxAndReceipt.atHeight]

theorem loop_saved_from (env : Env) (m : Int) (fuel : Nat) :
    ∀ (v : World) (it : BlockIterator), v.l.iterator = some it → m ≤ it.currentNumber →
      (∀ k blk, v.calls.detect ≤ k → env.Detect k blk = none) →
      ∃ s, (loop env fuel v).world.saved = v.saved ++ s ∧ ∀ x ∈ s, m ≤ x.BlockNumber := by
  induction fuel with
  | zero =>
    intro v it _ _ _
    exact ⟨[], by simp [loop, pure_run, Res.world], by simp⟩
  | succ n ih =>
    intro v it hit hm hnf
    unfold loop
    cases hs : v.l.stop with
    | cons a rest => exact ⟨[], by simp [Res.world], by simp⟩
    | nil =>
      simp only [bind_run]
      obtain ⟨w1, k, d, hw, _, hh⟩ := ProcessBlock_nofork env v (fun blk => hnf _ blk (Nat.le_refl _))
      have hstep : ∃ s1 it1, w1.saved = v.saved ++ s1 ∧ (∀ x ∈ s1, m ≤ x.BlockNumber) ∧
          w1.l.iterator = some it1 ∧ m ≤ it1.currentNumber := by
        rcases hh.saved with ⟨h1, h2⟩ | ⟨it', x, h1, h2, h3, h4⟩
        · exact ⟨[], it, by simp [h2], by simp, by rw [h1, hit], hm⟩
        · have hit' : it' = it := by rw [hit] at h1; exact (Option.some.inj h1).symm
          subst hit'
          refine ⟨[x], _, h4, ?_, h2, ?_⟩
          · intro y hy
            simp only [List.mem_singleton] at hy
            subst hy
            omega
          · simp only
            omega
      obtain ⟨s1, it1, hs1, hs1m, hit1, hm1⟩ := hstep
      cases hr : ProcessBlock env v with
      | halt h w2 =>
        rw [hr] at hw
        simp only [Res.world] at hw
        refine ⟨s1, ?_, hs1m⟩
        simp only [Res.world, hw, World.tail]
        exact hs1
      | ok a w2 =>
        rw [hr] at hw
        simp only [Res.world] at hw
        have hnf2 : ∀ k blk, w2.calls.detect ≤ k → env.Detect k blk = none := by
          intro k blk hk
          apply hnf k blk
          have h1 := hh.detect
          have h2 : w2.calls.detect = w1.calls.detect := by rw [hw]; rfl
          omega
        obtain ⟨s2, hs2, hs2m⟩ := ih w2 it1 (by rw [hw]; exact hit1) hm1 hnf2
        refine ⟨s1 ++ s2, ?_, ?_⟩
        · simp only
          rw [hs2, hw]
          simp only [World.tail]
          rw [hs1, List.append_assoc]
        · intro x hx
          rcases List.mem_append.mp hx with h | h
          · exact hs1m x h
          · exact hs2m x h

/-- C2: for an opened extractor and a block on which `Detect` returns the fork
event `e`, `ForkProcess` (its stop signal finding the channel free) returns
with the start height at `e.ForkBlock + 1` and with the iterator built by the
restart standing at exactly that height.  With that iterator the next `Next`
asks the node for the height `e.ForkBlock + 1` and hands out the block under
that number; and in every later run of the loop, for as long as no further fork
is declared, every block persisted has a height of at least
`e.ForkBlock + 1`. -/
theorem ForkProcess_rewinds_to_fork_block (env : Env) (currentBlock : Block) (w : World)
    (e : ForkEvent)
    (hopen : w.l.options.Open = true)
    (hfork : env.Detect w.calls.detect currentBlock = some e)
    (hstop : w.l.stop = []) :
    ∃ w1, ForkProcess env currentBlock w = .ok () w1 ∧
      w1.l.startBlockNumber = e.ForkBlock + 1 ∧
      w1.l.iterator = some (NewBlockIterator (e.ForkBlock + 1) w.l.endBlockNumber true
        w.l.options.ConfirmBlockNumber) ∧
      (∀ v : World, v.l.iterator = w1.l.iterator →
        Next env v =
          match env.GetBlock v.calls.next (e.ForkBlock + 1) with
          | .ok b => .ok (.ok (b.atHeight (e.ForkBlock + 1)))
              (v.fetched (NewBlockIterator (e.ForkBlock + 1) w.l.endBlockNumber true
                w.l.options.ConfirmBlockNumber))
          | .error err =>
            .ok (.error err) { v with calls := { v.calls with next := v.calls.next + 1 } }) ∧
      (∀ (v : World) (fuel : Nat), v.l.iterator = w1.l.iterator →
        (∀ k blk, v.calls.detect ≤ k → env.Detect k blk = none) →
        ∃ s, (loop env fuel v).world.saved = v.saved ++ s ∧
          ∀ x ∈ s, e.ForkBlock + 1 ≤ x.BlockNumber) := by
  have hs : stopFree w = true := by simp [stopFree, hstop]
  have hit : (w.detected.restarted e).l.iterator =
      some (NewBlockIterator (e.ForkBlock + 1) w.l.endBlockNumber true
        w.l.options.ConfirmBlockNumber) := by
    simp [World.restarted, World.detected, hopen]
  refine ⟨w.detected.restarted e, ForkProcess_fork env currentBlock w e hfork hs, ?_, hit, ?_, ?_⟩
  · simp [World.restarted, World.detected, hopen]
  · intro v hv
    rw [hit] at hv
    exact Next_run env v _ hv
  · intro v fuel hv hnf
    rw [hit] at hv
    exact loop_saved_from env (e.ForkBlock + 1) fuel v _ hv (Int.le_refl _) hnf

/-- Witness of C2: the sample extractor on block 7, for which the detector
reports a fork at height 5: the restart stands at height 6. -/
theorem ForkProcess_rewinds_to_fork_block_witness :
    ∃ w1, ForkProcess forkOnceEnv ⟨7, "0xh6", "0xh7", 1500⟩ (sampleWorld true) = .ok () w1 ∧
      w1.l.startBlockNumber = 5 + 1 ∧
      w1.l.iterator = some (NewBlockIterator (5 + 1) defaultEndBlockNumber true 3) :=
  match ForkProcess_rewinds_to_fork_block forkOnceEnv ⟨7, "0xh6", "0xh7", 1500⟩ (sampleWorld true)
    ⟨5, 7⟩ rfl rfl rfl with
  | ⟨w1, h1, h2, h3, _⟩ => ⟨w1, h1, h2, h3⟩

/-! ## Claim on the start height after construction -/

theorem setBlockNumberRange_run (env : Env) (w : World) (e : Int)
    (hend : w.l.options.EndBlockNumber = some e) :
    (setBlockNumberRange env w).returned = true ∧
    (setBlockNumberRange env w).world.l.startBlockNumber =
      resumeHeight env.FindLatestBlock w.l.options.StartBlockNumber ∧
    (setBlockNumberRange env w).world.l.options = w.l.options := by
  unfold setBlockNumberRange resumeHeight
  simp only [hend]
  cases env.FindLatestBlock with
  | error err =>
    refine ⟨rfl, ?_, ?_⟩
    · simp only [Res.world]
      split <;> rfl
    · simp only [Res.world]
      split <;> rfl
  | ok latest =>
    refine ⟨rfl, rfl, ?_⟩
    simp only [Res.world]
    split <;> rfl

/-- C12, as amended: for every configuration whose end height is set,
construction returns, and the start height it leaves is the number of the
latest persisted block when `FindLatestBlock` returns one, whatever the
configured start height, and the configured start height when
`FindLatestBlock` returns an error, as it does when no prior block exists;
`setBlockNumberRange` does the same from any world whose end height is set. -/
theorem NewExtractorService_start_height (env : Env) (options : ExtractorOptions) (e : Int)
    (hend : options.EndBlockNumber = some e) :
    (NewExtractorService env options).returned = true ∧
    (NewExtractorService env options).world.l.startBlockNumber =
      (match env.FindLatestBlock with
        | .ok latest => latest.BlockNumber
        | .error _ => options.StartBlockNumber) ∧
    (NewExtractorService env options).world.l.options = options ∧
    ∀ (w : World) (e' : Int), w.l.options.EndBlockNumber = some e' →
      (setBlockNumberRange env w).returned = true ∧
      (setBlockNumberRange env w).world.l.startBlockNumber =
        (match env.FindLatestBlock with
          | .ok latest => latest.BlockNumber
          | .error _ => w.l.options.StartBlockNumber) := by
  refine ⟨?_, ?_, ?_, fun w e' hw => ?_⟩
  · exact (setBlockNumberRange_run env _ e hend).1
  · exact (setBlockNumberRange_run env _ e hend).2.1
  · exact (setBlockNumberRange_run env _ e hend).2.2
  · exact ⟨(setBlockNumberRange_run env w e' hw).1, (setBlockNumberRange_run env w e' hw).2.1⟩

/-- Witness of C12 as amended: the sample configuration, with configured start
height 7, over a storage whose latest block is at height 42 and over an empty
storage. -/
theorem NewExtractorService_start_height_witness :
    ((NewExtractorService resumeEnv sampleOptions).returned = true ∧
      (NewExtractorService resumeEnv sampleOptions).world.l.startBlockNumber = 42) ∧
    ((NewExtractorService forkOnceEnv sampleOptions).returned = true ∧
      (NewExtractorService forkOnceEnv sampleOptions).world.l.startBlockNumber = 7) :=
  ⟨⟨(NewExtractorService_start_height resumeEnv sampleOptions 0 rfl).1,
      (NewExtractorService_start_height resumeEnv sampleOptions 0 rfl).2.1⟩,
   ⟨(NewExtractorService_start_height forkOnceEnv sampleOptions 0 rfl).1,
      (NewExtractorService_start_height forkOnceEnv sampleOptions 0 rfl).2.1⟩⟩

/-- Counterexample to C12 as stated: a configuration whose end height is unset,
over a storage whose latest block is at height 42.  Construction panics in
`l.endBlockNumber.Cmp`: it does not return, and the start height it has
assigned by then is the configured 7, not 42. -/
theorem NewExtractorService_unset_end_panics :
    resumeEnv.FindLatestBlock = .ok ⟨42, "0xh41", "0xh42", 900⟩ ∧
    (NewExtractorService resumeEnv { sampleOptions with EndBlockNumber := none }).halted =
      some .panic ∧
    (NewExtractorService resumeEnv
      { sampleOptions with EndBlockNumber := none }).world.l.startBlockNumber = 7 := by
  refine ⟨rfl, ?_, ?_⟩ <;> decide!

/-! ## Claim on the stop channel across restarts -/

theorem Start_stop_unchanged (v : World) :
    (Start v).returned = true ∧ (Start v).world.l.stop = v.l.stop := by
  unfold Start
  simp only [bind_run, getWorld_run]
  cases v.l.options.Open <;>
    simp [pure_run, bind_run, modifyWorld_run, On, goLoop, Res.returned, Res.world]

theorem loop_takes_signal (env : Env) (fuel : Nat) (w : World) (a : Bool) (rest : List Bool)
    (h : w.l.stop = a :: rest) :
    loop env (fuel + 1) w =
      .ok () { w with l := { w.l with stop := rest }, loops := w.loops - 1 } := by
  unfold loop
  simp only [h]

theorem Stop_Start_run (w : World) (hopen : w.l.options.Open = true) (hstop : w.l.stop = []) :
    ∃ w1, (Stop >>= fun _ => Start) w = .ok () w1 ∧ w1.l.stop = [true] ∧
      w1.loops = w.loops + 1 := by
  simp only [Stop, Start, bind_run, getWorld_run, hopen, Bool.not_true, Bool.false_eq_true,
    if_false, Un, sendStop, modifyWorld_run, hstop, List.length_nil, Nat.lt_one_iff, if_true,
    On, goLoop, List.nil_append]
  exact ⟨_, rfl, rfl, rfl⟩

/-- C11, as amended: `Start` does not make a new stop channel: it does not
assign `l.stop`, so that with no loop running the channel made by the
constructor and what waits in it are the same after `Start` as before.  For an
opened extractor with no loop running and an empty channel, after a `Stop`
followed by a `Start`, also when both are done by `ForkProcess`, the signal
sent by `Stop` is still in the channel when the new loop is launched, and that
loop, the only one there is, takes the signal in its first round and ends
without fetching, persisting or emitting anything. -/
theorem Start_keeps_stop_channel (env : Env) (w : World)
    (hopen : w.l.options.Open = true) (hstop : w.l.stop = []) (hloops : w.loops = 0) :
    (∀ v : World, v.loops = 0 →
      (Start v).returned = true ∧ (Start v).world.l.stop = v.l.stop) ∧
    (∃ w1, (Stop >>= fun _ => Start) w = .ok () w1 ∧ w1.l.stop = [true] ∧ w1.loops = 1 ∧
      ∀ fuel, ∃ w2, loop env (fuel + 1) w1 = .ok () w2 ∧ w2.l.stop = [] ∧
        w2.loops = 0 ∧ w2.bus = w1.bus ∧ w2.saved = w1.saved ∧ w2.calls = w1.calls) ∧
    (∀ currentBlock e, env.Detect w.calls.detect currentBlock = some e →
      ∃ w1, ForkProcess env currentBlock w = .ok () w1 ∧ w1.l.stop = [true] ∧ w1.loops = 1 ∧
        ∀ fuel, ∃ w2, loop env (fuel + 1) w1 = .ok () w2 ∧ w2.l.stop = [] ∧
          w2.loops = 0 ∧ w2.bus = w1.bus ∧ w2.saved = w1.saved ∧ w2.calls = w1.calls) := by
  refine ⟨fun v _ => Start_stop_unchanged v, ?_, ?_⟩
  · obtain ⟨w1, h1, h2, h3⟩ := Stop_Start_run w hopen hstop
    have h3' : w1.loops = 1 := by rw [h3, hloops]
    refine ⟨w1, h1, h2, h3', fun fuel => ?_⟩
    refine ⟨_, loop_takes_signal env fuel w1 true [] h2, rfl, ?_, rfl, rfl, rfl⟩
    simp [h3']
  · intro currentBlock e hfork
    have hs : stopFree w = true := by simp [stopFree, hstop]
    have h2 : (w.detected.restarted e).l.stop = [true] := by
      simp [World.restarted, World.detected, hopen, hstop]
    have h3 : (w.detected.restarted e).loops = 1 := by
      simp [World.restarted, World.detected, hopen, hloops]
    refine ⟨w.detected.restarted e, ForkProcess_fork env currentBlock w e hfork hs, h2, h3,
      fun fuel => ?_⟩
    refine ⟨_, loop_takes_signal env fuel _ true [] h2, rfl, ?_, rfl, rfl, rfl⟩
    simp [h3]

/-- Witness of C11 as amended: the sample extractor right after construction,
with no loop running, stopped and then started. -/
theorem Start_keeps_stop_channel_witness :
    ∃ w1, (Stop >>= fun _ => Start) (NewExtractorService forkOnceEnv sampleOptions).world =
        .ok () w1 ∧ w1.l.stop = [true] ∧ w1.loops = 1 ∧
      ∀ fuel, ∃ w2, loop forkOnceEnv (fuel + 1) w1 = .ok () w2 ∧ w2.l.stop = [] ∧
        w2.loops = 0 ∧ w2.bus = w1.bus ∧ w2.saved = w1.saved ∧ w2.calls = w1.calls :=
  (Start_keeps_stop_channel forkOnceEnv (NewExtractorService forkOnceEnv sampleOptions).world
    rfl rfl rfl).2.1

/-- Counterexample to C11 as stated: an opened extractor is constructed, stopped
and then started, with no loop running before.  When `Start` returns, the
channel still holds the signal of the earlier `Stop`, and the loop launched by
that `Start`, the only loop there is, takes it in its first round and ends:
after five rounds no block has been fetched or persisted and no loop is left.
Likewise when the `Stop` and the `Start` are those of `ForkProcess`, called on
the constructed extractor: the loop it launches ends on the signal sent for the
former generation. -/
theorem stale_stop_signal_ends_new_loop :
    ((Stop >>= fun _ => Start) (NewExtractorService forkOnceEnv sampleOptions).world).world.l.stop =
      [true] ∧
    ((Stop >>= fun _ => Start) (NewExtractorService forkOnceEnv sampleOptions).world).world.loops =
      1 ∧
    ((Stop >>= fun _ => Start >>= fun _ => loop forkOnceEnv 5)
      (NewExtractorService forkOnceEnv sampleOptions).world).returned = true ∧
    ((Stop >>= fun _ => Start >>= fun _ => loop forkOnceEnv 5)
      (NewExtractorService forkOnceEnv sampleOptions).world).world.calls.next = 0 ∧
    ((Stop >>= fun _ => Start >>= fun _ => loop forkOnceEnv 5)
      (NewExtractorService forkOnceEnv sampleOptions).world).world.saved = [] ∧
    ((Stop >>= fun _ => Start >>= fun _ => loop forkOnceEnv 5)
      (NewExtractorService forkOnceEnv sampleOptions).world).world.loops = 0 ∧
    (ForkProcess forkOnceEnv ⟨7, "0xh6", "0xh7", 1500⟩
      (NewExtractorService forkOnceEnv sampleOptions).world).world.l.stop = [true] ∧
    ((ForkProcess forkOnceEnv ⟨7, "0xh6", "0xh7", 1500⟩ >>= fun _ => loop forkOnceEnv 5)
      (NewExtractorService forkOnceEnv sampleOptions).world).world.calls.next = 0 ∧
    ((ForkProcess forkOnceEnv ⟨7, "0xh6", "0xh7", 1500⟩ >>= fun _ => loop forkOnceEnv 5)
      (NewExtractorService forkOnceEnv sampleOptions).world).world.loops = 0 := by
  decide!

end Extractor
